import Mathlib

/-!
A shallow embedding of the zlines compressed line container
(zlines/zline_api.c together with the struct layout in
zlines/zline_internal_api.h), and proofs about the claims of the
specification.

Modelling conventions:

* Machine integers (u64, int64_t, int) are modelled as Nat or Int.
  Unsigned wraparound is written out explicitly at the one place where
  it matters and is otherwise noted in comments.
* Byte strings are lists of Nat (one entry per byte).
* The zstd codec is an external library (not part of this repository);
  it is modelled as an abstract Codec structure holding a compression
  and a decompression function plus the two properties the C code
  relies on: decompression inverts compression, and compressing a
  nonempty buffer produces output (the code asserts compressed_len > 0
  after compressToFile).
* The data region of the file is modelled as a list of written chunks
  (DiskBlock), each tagged with the file offset at which it was
  written; fwrite/fread of packed structs is modelled as storing and
  loading the corresponding records, and a read at file offset p is
  modelled as locating the chunk written at p.  Offsets of distinct
  chunks are proved strictly increasing, so the lookup is unambiguous.
* The file cursor (ftell/fseek) is modelled by the filePos field;
  writes performed by flushBlock happen at the write block's offset,
  which the C code asserts equals the current cursor (ftell) at entry.
-/

/-- Byte strings: one Nat (0..255) per byte. -/
abbrev Bytes := List Nat

/-- ZlineIndexLine (zline_internal_api.h): the per-line record inside a
block: offset of the line inside the decompressed block content, and
its length. -/
structure ZlineIndexLine where
  offset : Nat
  length : Nat
deriving DecidableEq

instance : Inhabited ZlineIndexLine := ⟨⟨0, 0⟩⟩

/-- ZlineIndexBlock (zline_internal_api.h): the on-disk index entry for
one block.  The top bit of compressed_length_x flags a compressed line
directory; the low 63 bits hold the compressed content length. -/
structure ZlineIndexBlock where
  offset : Nat
  compressed_length_x : Nat
  decompressed_length : Nat
deriving DecidableEq

instance : Inhabited ZlineIndexBlock := ⟨⟨0, 0, 0⟩⟩

/-- LINE_INDEX_COMPRESSED_FLAG: bit 63 of compressed_length_x. -/
def LINE_INDEX_COMPRESSED_FLAG : Nat := 2 ^ 63

/-- getBlockCompressedLen: compressed_length_x with the flag bit masked
off (x mod 2^63 equals clearing bit 63 for any u64 value x). -/
def getBlockCompressedLen (b : ZlineIndexBlock) : Nat :=
  b.compressed_length_x % 2 ^ 63

/-- isBlockLineIndexCompressed: bit 63 of compressed_length_x. -/
def isBlockLineIndexCompressed (b : ZlineIndexBlock) : Bool :=
  b.compressed_length_x / 2 ^ 63 % 2 == 1

/-- ZlineBlock (zline_internal_api.h): a block held in memory, used both
as the write accumulator and as the read cache.  The lines_size,
content_size fields of the C struct are the lengths of the lists here;
lines_capacity is not modelled (allocation always succeeds), while
content_capacity drives the flush and oversize decisions and is kept. -/
structure ZlineBlock where
  idx : Int
  offset : Nat
  first_line : Nat
  lines : List ZlineIndexLine
  content : Bytes
  content_capacity : Nat
  line_index_size : Nat
deriving DecidableEq

instance : Inhabited ZlineBlock := ⟨⟨0, 0, 0, [], [], 0, 0⟩⟩

/-- The abstract streaming codec (the zstd library, external to this
repository).  decompress_compress is the round-trip property of the
codec; compress_pos records that compressing nonempty input produces
nonempty output (the C code asserts compressed_len > 0). -/
structure Codec where
  compress : Bytes → Bytes
  decompress : Bytes → Bytes
  decompress_compress : ∀ b, decompress (compress b) = b
  compress_pos : ∀ b, b ≠ [] → compress b ≠ []

/-- The identity codec: a concrete Codec instance used to evaluate the
model on concrete inputs. -/
def idCodec : Codec where
  compress := fun b => b
  decompress := fun b => b
  decompress_compress := fun _ => rfl
  compress_pos := fun _ h => h

/-- The on-disk form of a block's line directory: either the raw array
of ZlineIndexLine records, or its codec-compressed image preceded by an
8-byte length.  The records recovered by decompression are stored
directly (fwrite/fread of packed structs is store/load of records);
storedLen is the byte length of the compressed image on disk. -/
inductive DiskLineDir where
  | raw (lines : List ZlineIndexLine)
  | compressed (storedLen : Nat) (lines : List ZlineIndexLine)
deriving DecidableEq

instance : Inhabited DiskLineDir := ⟨.raw []⟩

/-- One block as written to the data region of the file: the offset at
which it starts, its line directory, and the compressed content bytes. -/
structure DiskBlock where
  offset : Nat
  dir : DiskLineDir
  contentComp : Bytes
deriving DecidableEq

instance : Inhabited DiskBlock := ⟨⟨0, .raw [], []⟩⟩

/-- The number of bytes the line directory occupies on disk: 16 per raw
record (sizeof(ZlineIndexLine)), or 8 (the u64 size prefix) plus the
compressed image. -/
def dirDiskSize : DiskLineDir → Nat
  | .raw ls => 16 * ls.length
  | .compressed storedLen _ => 8 + storedLen

/-- The line records recovered from the on-disk directory. -/
def dirLines : DiskLineDir → List ZlineIndexLine
  | .raw ls => ls
  | .compressed _ ls => ls

/-- Total on-disk size of a block: line directory plus compressed
content. -/
def diskBlockSize (db : DiskBlock) : Nat :=
  dirDiskSize db.dir + db.contentComp.length

/-- The text header fields (section 4.4 of the spec; writeHeader /
readHeader in zline_api.c).  The alg field is always the accepted
value fzstd for files produced by this writer and is not carried. -/
structure ZlineHeader where
  data_offset : Nat
  index_offset : Nat
  lines : Nat
  blocks : Nat
  maxlen : Nat
  zi : Bool
deriving DecidableEq

instance : Inhabited ZlineHeader := ⟨⟨0, 0, 0, 0, 0, false⟩⟩

/-- A closed zlines file: header, the data region (sequence of written
blocks), and the index region (block index and block_starts array,
stored compressed when zi is set; both decompress exactly to the
recorded arrays, and ZlineFile_read verifies the decompressed byte
counts). -/
structure DiskFile where
  header : ZlineHeader
  body : List DiskBlock
  blocks : List ZlineIndexBlock
  block_starts : List Nat
deriving DecidableEq

instance : Inhabited DiskFile := ⟨⟨default, [], [], []⟩⟩

/-- struct ZlineFile (zline_internal_api.h).  blocks_size and the
block_starts entry count are the lengths of the lists; capacities are
not modelled.  body is the data region written so far (the bytes
reachable through fp), filePos models ftell(fp). -/
structure ZlineFile where
  mode : Nat
  is_index_compressed : Bool
  write_block : Option ZlineBlock
  read_block : Option ZlineBlock
  line_count : Nat
  data_offset : Nat
  index_offset : Nat
  blocks : List ZlineIndexBlock
  block_starts : List Nat
  max_line_len : Nat
  fseek_flag : Bool
  filePos : Nat
  body : List DiskBlock
deriving DecidableEq

instance : Inhabited ZlineFile :=
  ⟨⟨0, false, none, none, 0, 0, 0, [], [], 0, false, 0, []⟩⟩

def ZLINE_MODE_CREATE : Nat := 1
def ZLINE_MODE_READ : Nat := 2
def DEFAULT_BLOCK_SIZE : Nat := 4 * 1024 * 1024
def MAX_IN_MEMORY_BLOCK : Nat := DEFAULT_BLOCK_SIZE
def HEADER_SIZE : Nat := 256
/-- INT_MAX of the C int type. -/
def C_INT_MAX : Nat := 2 ^ 31 - 1

/-- createBlock: allocates a ZlineBlock.  A content_capacity ≤ 0 is
replaced by INITIAL_BLOCK_CAPACITY = 100; the line capacity is not
modelled. -/
def createBlock (content_capacity : Int) : ZlineBlock :=
  { idx := 0, offset := 0, first_line := 0, lines := [], content := [],
    content_capacity := if content_capacity ≤ 0 then 100 else content_capacity.toNat,
    line_index_size := 0 }

/-- ZlineFile_create2: rejects block_size > INT_MAX, replaces 0 by the
default 4 MiB, opens the file, writes the placeholder header (leaving
the cursor at HEADER_SIZE) and initializes blocks_size = 1 with a
placeholder entry whose offset is 0; the write block starts at offset
HEADER_SIZE.  File-system and allocation failures are not modelled. -/
def ZlineFile_create2 (block_size : Nat) : Option ZlineFile :=
  if block_size > C_INT_MAX then none
  else
    let bs := if block_size = 0 then DEFAULT_BLOCK_SIZE else block_size
    some { mode := ZLINE_MODE_CREATE, is_index_compressed := true,
           write_block := some { createBlock (bs : Int) with idx := 0, offset := HEADER_SIZE },
           read_block := none, line_count := 0, data_offset := HEADER_SIZE,
           index_offset := 0, blocks := [⟨0, 0, 0⟩], block_starts := [],
           max_line_len := 0, fseek_flag := false, filePos := HEADER_SIZE,
           body := [] }

/-- ZlineFile_create: create with the default block size. -/
def ZlineFile_create : Option ZlineFile :=
  ZlineFile_create2 DEFAULT_BLOCK_SIZE

/-- le64: the little-endian 8-byte image of a u64 (the in-memory layout
of the fields of ZlineIndexLine, which useCompressedLineIndex hands to
the codec). -/
def le64 (n : Nat) : Bytes :=
  [n % 256, n / 2 ^ 8 % 256, n / 2 ^ 16 % 256, n / 2 ^ 24 % 256,
   n / 2 ^ 32 % 256, n / 2 ^ 40 % 256, n / 2 ^ 48 % 256, n / 2 ^ 56 % 256]

/-- The byte image of one ZlineIndexLine record (16 bytes). -/
def serializeLine (l : ZlineIndexLine) : Bytes := le64 l.offset ++ le64 l.length

/-- The byte image of a line directory array, as passed to the codec by
useCompressedLineIndex. -/
def serializeLines (ls : List ZlineIndexLine) : Bytes :=
  (ls.map serializeLine).flatten

/-- useCompressedLineIndex: never compresses directories with fewer
than two lines; otherwise compresses the byte image of the array and
chooses the compressed form iff its size plus the 8-byte prefix is
smaller than the raw array (result + sizeof(uint64_t) < array_size).
Returns the compressed byte count when compression is chosen. -/
def useCompressedLineIndex (codec : Codec) (b : ZlineBlock) : Option Nat :=
  if b.lines.length < 2 then none
  -- result + sizeof(uint64_t) < array_size, with array_size the byte
  -- size of the record array and result the compressed byte count
  else if (codec.compress (serializeLines b.lines)).length + 8 < b.lines.length * 16
  then some (codec.compress (serializeLines b.lines)).length
  else none

/-- compressToFile: streams a buffer through the codec into the file;
returns the bytes written.  A zero-length input writes nothing. -/
def compressToFile (codec : Codec) (input : Bytes) : Bytes :=
  if input = [] then [] else codec.compress input

/-- decompressFromFile: reads a compressed region of the given bytes,
discards read_offset decompressed bytes, then yields output until the
destination buffer (readbuf_len bytes) is full or the input is
exhausted.  A zero-length compressed input yields nothing. -/
def decompressFromFile (codec : Codec) (compressedBytes : Bytes)
    (readbuf_len : Nat) (read_offset : Nat) : Bytes :=
  if compressedBytes = [] then []
  else ((codec.decompress compressedBytes).drop read_offset).take readbuf_len

/-- addLineInternal: appends the record (content_size, length) to the
write block's line index; on the first line of a block records
first_line and, for non-initial blocks, writes block_starts[idx-1];
bumps line_count and max_line_len. -/
def addLineInternal (zf : ZlineFile) (length : Nat) : ZlineFile :=
  match zf.write_block with
  | none => zf
  | some b =>
    let line : ZlineIndexLine := { offset := b.content.length, length := length }
    let b' : ZlineBlock :=
      { b with lines := b.lines ++ [line],
               first_line := if b.lines = [] then zf.line_count else b.first_line }
    let starts :=
      if b.lines = [] ∧ b.idx > 0
      then zf.block_starts.set (b.idx.toNat - 1) zf.line_count
      else zf.block_starts
    { zf with write_block := some b', block_starts := starts,
              line_count := zf.line_count + 1,
              max_line_len := max length zf.max_line_len }

/-- flushBlock: writes the current write block to disk unless its
content is empty.  Finalizes the current index entry (offset,
decompressed length, compressed length with the directory flag),
rewrites block_starts[idx-1] with the block's first line, writes the
line directory (compressed when useCompressedLineIndex chooses so, raw
otherwise, nothing when the block has no lines), streams the content
through the codec, appends the placeholder index entry for the next
block at the advanced offset, records the next block's first line as
the current line_count, and resets the write block.  The C code
asserts ftell(fp) == write_block->offset on entry, so the chunk is
written at that offset and the cursor advances past it. -/
def flushBlock (codec : Codec) (zf : ZlineFile) : ZlineFile :=
  match zf.write_block with
  | none => zf
  | some b =>
    if b.content = [] then zf
    else
      let dirChoice : DiskLineDir × Nat × Nat :=
        if b.lines = [] then (.raw [], 0, 0)
        else
          match useCompressedLineIndex codec b with
          | some clen => (.compressed clen b.lines, 8 + clen, LINE_INDEX_COMPRESSED_FLAG)
          | none => (.raw b.lines, 16 * b.lines.length, 0)
      let dir := dirChoice.1
      let line_index_len := dirChoice.2.1
      let flag := dirChoice.2.2
      let comp := compressToFile codec b.content
      let compressed_len := comp.length
      let next_block_start := b.offset + line_index_len + compressed_len
      let finalized : ZlineIndexBlock :=
        { offset := b.offset, compressed_length_x := compressed_len + flag,
          decompressed_length := b.content.length }
      let newEntry : ZlineIndexBlock := { offset := next_block_start,
                                          compressed_length_x := 0,
                                          decompressed_length := 0 }
      let starts0 :=
        if b.idx > 0 then zf.block_starts.set (b.idx.toNat - 1) b.first_line
        else zf.block_starts
      { zf with
        blocks := zf.blocks.set (zf.blocks.length - 1) finalized ++ [newEntry],
        block_starts := starts0 ++ [zf.line_count],
        body := zf.body ++ [{ offset := b.offset, dir := dir, contentComp := comp }],
        filePos := next_block_start,
        write_block := some { b with idx := (zf.blocks.length : Int),
                                     offset := next_block_start,
                                     lines := [], content := [] } }

/-- ZlineFile_add_line2: appends one line of the given length (the
supplied length is authoritative; the C code reads exactly length
bytes from the caller's buffer, modelled as line.take length).  If the
line does not fit in the current block the block is flushed first; a
line longer than the whole block capacity is streamed straight to disk
as its own flush, with the write block's content buffer swapped out
and restored (empty) afterwards.  Returns -1 when the file is not in
create mode, otherwise 0. -/
def ZlineFile_add_line2 (codec : Codec) (zf : ZlineFile) (line : Bytes)
    (length : Nat) : Int × ZlineFile :=
  if zf.mode ≠ ZLINE_MODE_CREATE then (-1, zf)
  else
    match zf.write_block with
    | none => (-1, zf)  -- unreachable: create-mode files carry a write block (assert in C)
    | some b0 =>
      let zf1 := if b0.content.length + length > b0.content_capacity
                 then flushBlock codec zf else zf
      let zf2 := addLineInternal zf1 length
      match zf2.write_block with
      | none => (0, zf2)  -- unreachable, as above
      | some b =>
        if length ≤ b.content_capacity then
          let b' : ZlineBlock := { b with content := b.content ++ line.take length }
          (0, { zf2 with write_block := some b' })
        else
          let b' : ZlineBlock := { b with content := line.take length }
          (0, flushBlock codec { zf2 with write_block := some b' })

/-- ZlineFile_close (create mode): flushes the final block when its
content is nonempty, drops the trailing placeholder index entry
(blocks_size--), pads the data region to an 8-byte-aligned
index_offset, writes the index region (blocks_size index entries and
blocks_size - 1 block_starts entries) and rewrites the header with the
final counts.  For blocks_size = 0 (no block ever flushed) the C code
computes the block_starts entry count blocks_size - 1 as a u64, which
underflows to 2^64 - 1 and reads far out of bounds; the model records
the truncated (empty) array — the header it writes is rejected by
readHeader on re-open either way.  Closing a read-mode file only
releases resources and is not modelled. -/
def ZlineFile_close (codec : Codec) (zf : ZlineFile) : DiskFile :=
  let zf1 := match zf.write_block with
             | some b => if b.content ≠ [] then flushBlock codec zf else zf
             | none => zf
  let blocks_size := zf1.blocks.length - 1
  let current_pos := match zf1.write_block with
                     | some b => b.offset
                     | none => 0
  let pad_size := (8 - current_pos % 8) % 8
  let index_offset := current_pos + pad_size
  { header := { data_offset := zf1.data_offset, index_offset := index_offset,
                lines := zf1.line_count, blocks := blocks_size,
                maxlen := zf1.max_line_len, zi := zf1.is_index_compressed },
    body := zf1.body,
    blocks := zf1.blocks.take blocks_size,
    block_starts := zf1.block_starts.take (blocks_size - 1) }

/-- readHeader: returns true iff the header is accepted (the C function
returns 0).  The version line, field syntax and algorithm name are
always the accepted ones for files produced by this writer; the
incompleteness check is the one modelled: any of data_offset,
index_offset, lines, blocks equal to zero is rejected. -/
def readHeader (h : ZlineHeader) : Bool :=
  ¬(h.data_offset = 0 ∨ h.index_offset = 0 ∨ h.lines = 0 ∨ h.blocks = 0)

/-- ZlineFile_get_block_count: blocks_size. -/
def ZlineFile_get_block_count (zf : ZlineFile) : Nat := zf.blocks.length

/-- ZlineFile_get_block_line_count: number of lines stored in a block,
from the block_starts array (0 for an out-of-range block index). -/
def ZlineFile_get_block_line_count (zf : ZlineFile) (block_idx : Nat) : Nat :=
  if block_idx ≥ zf.blocks.length then 0
  else
    -- u64 subtraction block_end - block_start; for files produced by this
    -- writer block_end ≥ block_start, so truncated subtraction agrees
    let block_start := if block_idx = 0 then 0 else zf.block_starts.getD (block_idx - 1) 0
    let block_end := if block_idx = zf.blocks.length - 1 then zf.line_count
                     else zf.block_starts.getD block_idx 0
    block_end - block_start

/-- ZlineFile_get_block_size_original: decompressed length of a block
(0 for an out-of-range index). -/
def ZlineFile_get_block_size_original (zf : ZlineFile) (block_idx : Nat) : Nat :=
  if block_idx ≥ zf.blocks.length then 0
  else (zf.blocks.getD block_idx default).decompressed_length

/-- ZlineFile_get_block_size_compressed: compressed length of a block
with the flag masked off (0 for an out-of-range index). -/
def ZlineFile_get_block_size_compressed (zf : ZlineFile) (block_idx : Nat) : Nat :=
  if block_idx ≥ zf.blocks.length then 0
  else getBlockCompressedLen (zf.blocks.getD block_idx default)

/-- ZlineFile_get_block_first_line: index of the first line of a block
(0 for an out-of-range index and for block 0). -/
def ZlineFile_get_block_first_line (zf : ZlineFile) (block_idx : Nat) : Nat :=
  if block_idx ≥ zf.blocks.length then 0
  else if block_idx = 0 then 0
  else zf.block_starts.getD (block_idx - 1) 0

/-- ZlineFile_get_block_offset: file offset of a block (0 for an
out-of-range index). -/
def ZlineFile_get_block_offset (zf : ZlineFile) (block_idx : Nat) : Nat :=
  if block_idx ≥ zf.blocks.length then 0
  else (zf.blocks.getD block_idx default).offset

/-- ZlineFile_get_block_index_offset. -/
def ZlineFile_get_block_index_offset (zf : ZlineFile) : Nat := zf.index_offset

/-- The value a u64 leaves in a C int: two's-complement narrowing — the
low 32 bits, read as a signed value (negative for low halves in
[2^31, 2^32)). -/
def u64ToCInt (n : Nat) : Int :=
  if n % 2 ^ 32 < 2 ^ 31 then ((n % 2 ^ 32 : Nat) : Int)
  else ((n % 2 ^ 32 : Nat) : Int) - 2 ^ 32

/-- The u64 value of a C int: the usual arithmetic conversion
int → uint64_t (sign extension, then the unsigned wrap mod 2^64). -/
def cIntToU64 (i : Int) : Nat := (i % 2 ^ 64).toNat

/-- One step of the max_content_len / max_line_count scans of
ZlineFile_read: MAX(acc, v) with acc a C int and v a u64.  The
comparison happens in u64 arithmetic (the int operand is converted, so
a negative acc compares huge), and the chosen value is assigned back
into the int, narrowing it. -/
def maxCIntU64 (acc : Int) (v : Nat) : Int :=
  if cIntToU64 acc > v then acc else u64ToCInt v

/-- ZlineFile_read: opens a closed file, validates the header, loads
the index arrays (decompressing and checking the exact decompressed
byte counts when the zi flag is set — modelled as a length check of
the recorded arrays against the header counts), scans the index for
the largest decompressed length, and allocates the read cache block
with idx = -1.  The scan variable max_content_len is a C int: each
decompressed_length is folded in through maxCIntU64, so a length
≥ 2^31 leaves a truncated (possibly negative) value and the cache is
allocated far too small — readBlock then repairs the capacity per
block through another int, see there.  The analogous max_line_count
scan only sizes the line array, whose capacity is not modelled
(allocation always succeeds); the int narrowing of per-block line
counts is modelled where it is observable, in readBlock.  The
consistency check of the two compressed index sizes against the file
size always passes for files produced by this writer and is not
modelled separately. -/
def ZlineFile_read (_codec : Codec) (d : DiskFile) : Option ZlineFile :=
  if ¬readHeader d.header then none
  else if d.blocks.length ≠ d.header.blocks ∨
          d.block_starts.length ≠ d.header.blocks - 1 then none
  else
    let zfBase : ZlineFile :=
      { mode := ZLINE_MODE_READ, is_index_compressed := d.header.zi,
        write_block := none, read_block := none,
        line_count := d.header.lines, data_offset := d.header.data_offset,
        index_offset := d.header.index_offset, blocks := d.blocks,
        block_starts := d.block_starts, max_line_len := d.header.maxlen,
        fseek_flag := false, filePos := d.header.index_offset, body := d.body }
    let max_content_len : Int :=
      zfBase.blocks.foldl (fun m b => maxCIntU64 m b.decompressed_length) 0
    some { zfBase with
           read_block := some { createBlock max_content_len with idx := -1 } }

/-- ZlineFile_line_count. -/
def ZlineFile_line_count (zf : ZlineFile) : Nat := zf.line_count

/-- ZlineFile_max_line_length. -/
def ZlineFile_max_line_length (zf : ZlineFile) : Nat := zf.max_line_len

/-- getLineBlockLoop: the linear scan of getLineBlock.  The loop runs i
upward while i < n, returning the first i with
line_idx ≤ block_starts[i] - 1, or n when no test succeeds; here the
remaining iteration count n - i is the structural argument.  The
subtraction block_starts[i] - 1 is u64; for files produced by this
writer every block_starts entry is at least 1, where truncated Nat
subtraction agrees with the u64 value. -/
def getLineBlockLoop (starts : List Nat) (line_idx : Nat) : Nat → Nat → Nat
  | i, 0 => i
  | i, rem + 1 =>
    if line_idx ≤ starts.getD i 0 - 1 then i
    else getLineBlockLoop starts line_idx (i + 1) rem

/-- getLineBlock: index of the block containing a line — 0 when there
is at most one block, otherwise the linear scan over block_starts. -/
def getLineBlock (zf : ZlineFile) (line_idx : Nat) : Nat :=
  if zf.blocks.length ≤ 1 then 0
  else getLineBlockLoop zf.block_starts line_idx 0 (zf.blocks.length - 1)

/-- lineInBlock: the line's index record if the line starts in this
block, none otherwise. -/
def lineInBlock (block : Option ZlineBlock) (line_idx : Nat) :
    Option ZlineIndexLine :=
  match block with
  | none => none
  | some b =>
    if b.lines.length > 0 ∧ b.first_line ≤ line_idx ∧
       line_idx < b.first_line + b.lines.length
    then some (b.lines.getD (line_idx - b.first_line) default)
    else none

/-- readBlock: loads a block into the read cache unless it is already
there.  Seeks to the block's offset (setting fseek_flag), reads the
line directory (decompressing it when flagged; line_index_size is set
to the raw byte count, or to the compressed byte count without its
8-byte prefix), then decompresses the content into the cache — except
for a single-line block whose decompressed length exceeds
MAX_IN_MEMORY_BLOCK, whose content stays on disk (content_size 0).
Two C int narrowings bound what the function can handle:
block_line_count is declared int, so a block holding ≥ 2^31 lines
arrives truncated and every use of the count (lines_size, the
line-array capacity request, line_bytes) is wrong; and the cached
path requests its buffer through contentInsureCapacity(b, int), so a
decompressed length ≥ 2^31 arrives truncated (negative for lengths
below 2^32), the capacity test b->content_capacity < capacity fails,
the buffer is never grown, and decompressFromFile then writes the
full decompressed length into it — a heap overflow, undefined
behaviour.  A corrupted heap has no rendering in this model: both
out-of-range cases are mapped to a state-preserving failure, so no
theorem proved from this definition says anything about what the
program does on such blocks.  (The single-line skip branch writes no
content and is safe for any length.)  Other failure paths (short
reads, codec errors) likewise leave the file unchanged and are
unreachable for intact files produced by this writer; on a corrupt or
inconsistent file the C code instead reads whatever bytes are present
(possibly misparsing them) — the model renders every such
inconsistency as a failed, state-preserving read. -/
def readBlock (codec : Codec) (zf : ZlineFile) (block_idx : Nat) : ZlineFile :=
  let cached := match zf.read_block with
                | some rb => rb.idx == (block_idx : Int)
                | none => false
  if cached then zf
  else
    let block := zf.blocks.getD block_idx default
    let block_line_count := ZlineFile_get_block_line_count zf block_idx
    -- int block_line_count: a count ≥ 2^31 is truncated by the C code
    -- and corrupts the directory read (undefined behaviour downstream)
    if 2 ^ 31 ≤ block_line_count then zf
    else
    match zf.body.find? (fun db => db.offset == block.offset) with
    | none => zf
    | some db =>
      let first_line := if block_idx = 0 then 0
                        else zf.block_starts.getD (block_idx - 1) 0
      let dirRead : Option (List ZlineIndexLine × Nat × Nat) :=
        if isBlockLineIndexCompressed block then
          match db.dir with
          | .compressed storedLen ls =>
            some (ls.take block_line_count, storedLen,
                  block.offset + 8 + storedLen)
          | .raw _ => none
        else
          match db.dir with
          | .raw ls =>
            some (ls.take block_line_count, 16 * block_line_count,
                  block.offset + 16 * block_line_count)
          | .compressed _ _ => none
      match dirRead with
      | none => zf
      | some (lines, line_index_size, posAfterDir) =>
        if lines.length ≠ block_line_count then zf
        else
          let rb0 := match zf.read_block with
                     | some rb => rb
                     | none => createBlock (u64ToCInt block.decompressed_length)
          if block_line_count = 1 ∧ block.decompressed_length > MAX_IN_MEMORY_BLOCK
          then
            { zf with fseek_flag := true, filePos := posAfterDir,
                      read_block := some { rb0 with
                        idx := (block_idx : Int), offset := block.offset,
                        first_line := first_line, lines := lines,
                        content := [], line_index_size := line_index_size } }
          -- contentInsureCapacity(read_block, (int)decompressed_length):
          -- a length ≥ 2^31 arrives truncated, the buffer is not grown,
          -- and the following decompress overflows it (undefined
          -- behaviour); the model stops here instead
          else if 2 ^ 31 ≤ block.decompressed_length then zf
          else
            let content := decompressFromFile codec
              (db.contentComp.take (getBlockCompressedLen block))
              block.decompressed_length 0
            if content.length ≠ block.decompressed_length then zf
            else
              { zf with fseek_flag := true,
                        filePos := posAfterDir + getBlockCompressedLen block,
                        read_block := some { rb0 with
                          idx := (block_idx : Int), offset := block.offset,
                          first_line := first_line, lines := lines,
                          content := content, line_index_size := line_index_size } }

/-- Which in-memory block loadLine found the line in. -/
inductive WhichBlock where
  | write
  | read
deriving DecidableEq

/-- loadLine: locates a line's record — in the write block (create mode
only), in the read cache, or by loading its block into the cache.  The
C code asserts the record is found after readBlock; the model yields
none there (unreachable for intact files produced by this writer). -/
def loadLine (codec : Codec) (zf : ZlineFile) (line_idx : Nat) :
    ZlineFile × Option (ZlineIndexLine × WhichBlock) :=
  let fromWrite : Option ZlineIndexLine :=
    if zf.mode = ZLINE_MODE_CREATE then lineInBlock zf.write_block line_idx
    else none
  match fromWrite with
  | some l => (zf, some (l, .write))
  | none =>
    match lineInBlock zf.read_block line_idx with
    | some l => (zf, some (l, .read))
    | none =>
      let block_idx := getLineBlock zf line_idx
      let zf1 := readBlock codec zf block_idx
      match lineInBlock zf1.read_block line_idx with
      | some l => (zf1, some (l, .read))
      | none => (zf1, none)

/-- ZlineFile_line_length: -1 for an out-of-range line index, otherwise
the stored length of the line, loading its block's line directory if
needed.  The file state is returned as well since the load moves the
file cursor (and does not restore it). -/
def ZlineFile_line_length (codec : Codec) (zf : ZlineFile) (line_idx : Nat) :
    Int × ZlineFile :=
  if line_idx ≥ zf.line_count then (-1, zf)
  else
    match loadLine codec zf line_idx with
    | (zf1, some (l, _)) => ((l.length : Int), zf1)
    | (zf1, none) => (-1, zf1)  -- C asserts the record is found; unreachable on intact files

/-- ZlineFile_get_line2: copies up to buf_len - 1 bytes of the line
starting offset bytes in, followed by a nul terminator; the result is
the written buffer contents (none models a NULL return).  When the
line's block content is cached the bytes are copied from memory;
otherwise (an oversize single-line block left on disk) they are
streamed by decompressFromFile with skip = offset after seeking to
block offset + line_index_size — that fseek does not set fseek_flag.
In create mode the writer's cursor (write_block->offset) is saved and,
if fseek_flag was set by a block load, restored before returning.  On
a decompression shortfall the C code skips the nul terminator but
still returns buf; the model returns the bytes written (that path is
unreachable on intact files).  A buf_len of 0 would underflow the u64
buf_len - 1 in C; callers pass buf_len ≥ 1. -/
def ZlineFile_get_line2 (codec : Codec) (zf0 : ZlineFile) (line_idx : Nat)
    (buf_len : Nat) (offset : Nat) : Option Bytes × ZlineFile :=
  if line_idx ≥ zf0.line_count then (none, zf0)
  else
    let zf1 := { zf0 with fseek_flag := false }
    let file_pos : Int :=
      if zf1.mode = ZLINE_MODE_CREATE then
        match zf1.write_block with
        | some b => (b.offset : Int)
        | none => -1
      else -1
    let restore := fun (zf : ZlineFile) =>
      if zf.fseek_flag ∧ file_pos ≠ -1 then { zf with filePos := file_pos.toNat }
      else zf
    match loadLine codec zf1 line_idx with
    | (zf2, none) => (none, restore zf2)  -- unreachable on intact files (assert in loadLine)
    | (zf2, some (l, wb)) =>
      let blockOpt := match wb with
                      | .write => zf2.write_block
                      | .read => zf2.read_block
      match blockOpt with
      | none => (none, restore zf2)  -- unreachable: loadLine found the line in this block
      | some block =>
        if l.length > 0 ∧ offset < l.length then
          let copy_len := min (l.length - offset) (buf_len - 1)
          if block.content.length > 0 then
            (some ((block.content.drop (l.offset + offset)).take copy_len ++ [0]),
             restore zf2)
          else
            let index_block := zf2.blocks.getD block.idx.toNat default
            let compressed_len := getBlockCompressedLen index_block
            let zf3 := { zf2 with filePos := block.offset + block.line_index_size
                                             + compressed_len }
            match zf2.body.find? (fun db => db.offset == block.offset) with
            | none => (none, restore zf3)
            | some db =>
              let written := decompressFromFile codec
                (db.contentComp.take compressed_len) copy_len offset
              if written.length ≠ copy_len then (some written, restore zf3)
              else (some (written ++ [0]), restore zf3)
        else
          (some [0], restore zf2)

/-- ZlineFile_get_line: reads a whole line as a fresh nul-terminated
buffer (length + 1 bytes), or none when the index is out of range. -/
def ZlineFile_get_line (codec : Codec) (zf : ZlineFile) (line_idx : Nat) :
    Option Bytes × ZlineFile :=
  let lenRes := ZlineFile_line_length codec zf line_idx
  if lenRes.1 < 0 then (none, lenRes.2)
  else ZlineFile_get_line2 codec lenRes.2 line_idx (lenRes.1.toNat + 1) 0

/-- Builds a file from a sequence of lines: create with the given block
size, then add each line with its exact length (the scenario of the
round-trip claims). -/
def buildFile (codec : Codec) (block_size : Nat) (S : List Bytes) :
    Option ZlineFile :=
  (ZlineFile_create2 block_size).map
    (fun zf0 => S.foldl (fun zf s => (ZlineFile_add_line2 codec zf s s.length).2) zf0)

/-- The full round trip: build, close, re-open. -/
def roundTrip (codec : Codec) (block_size : Nat) (S : List Bytes) :
    Option ZlineFile :=
  match buildFile codec block_size S with
  | none => none
  | some zf => ZlineFile_read codec (ZlineFile_close codec zf)

/-- The effective write-block content capacity chosen by
ZlineFile_create2 for a given block_size argument. -/
def capOf (block_size : Nat) : Nat :=
  if block_size = 0 then DEFAULT_BLOCK_SIZE else block_size

/-- Index of the last nonempty line of a sequence, if any. -/
def lastNonemptyIdx? (S : List Bytes) : Option Nat :=
  ((List.range S.length).filter (fun i => S.getD i [] ≠ [])).getLast?

/-- Maximum line length of a sequence, accumulated the way the writer
accumulates max_line_len (MAX of each added length). -/
def maxLenAcc (S : List Bytes) : Nat :=
  S.foldl (fun m s => max s.length m) 0

/-! ## Basic structural lemmas -/

/-- Setting an in-range index and then appending leaves the set value
readable at that index. -/
theorem getD_set_append_self {α : Type} (l : List α) (i : Nat) (h : i < l.length)
    (a : α) (x : α) (d : α) : (l.set i a ++ [x]).getD i d = a := by
  induction l generalizing i with
  | nil => simp at h
  | cons y ys ih =>
    cases i with
    | zero => simp [List.getD]
    | succ j =>
      simp only [List.set, List.cons_append, List.getD_cons_succ]
      exact ih j (by simpa using h)

/-- The getElem? form of getD_set_append_self. -/
theorem getElem?_set_append_self {α : Type} (l : List α) (i : Nat) (h : i < l.length)
    (a : α) (x : α) : (l.set i a ++ [x])[i]? = some a := by
  induction l generalizing i with
  | nil => simp at h
  | cons y ys ih =>
    cases i with
    | zero => simp
    | succ j => simpa using ih j (by simpa using h)

/-- flushBlock keeps the write block present. -/
theorem flushBlock_write_block_isSome (codec : Codec) (zf : ZlineFile)
    (h : zf.write_block.isSome) : (flushBlock codec zf).write_block.isSome := by
  unfold flushBlock
  match hwb : zf.write_block with
  | none => simp [hwb] at h
  | some b =>
    by_cases hc : b.content = []
    · simp [hc, hwb]
    · simp [hc, hwb]

/-- addLineInternal keeps the write block present. -/
theorem addLineInternal_write_block_isSome (zf : ZlineFile) (n : Nat)
    (h : zf.write_block.isSome) : (addLineInternal zf n).write_block.isSome := by
  unfold addLineInternal
  match hwb : zf.write_block with
  | none => simp [hwb] at h
  | some b => simp [hwb]

/-! ## C10 -/

/-- C10: for every block index greater than or equal to the block
count, the introspection getters ZlineFile_get_block_size_original,
ZlineFile_get_block_size_compressed, ZlineFile_get_block_first_line,
ZlineFile_get_block_line_count and ZlineFile_get_block_offset all
return 0. -/
theorem C10_oob_getters_return_zero (zf : ZlineFile) (block_idx : Nat)
    (h : block_idx ≥ zf.blocks.length) :
    ZlineFile_get_block_size_original zf block_idx = 0 ∧
    ZlineFile_get_block_size_compressed zf block_idx = 0 ∧
    ZlineFile_get_block_first_line zf block_idx = 0 ∧
    ZlineFile_get_block_line_count zf block_idx = 0 ∧
    ZlineFile_get_block_offset zf block_idx = 0 := by
  refine ⟨?_, ?_, ?_, ?_, ?_⟩ <;>
    simp [ZlineFile_get_block_size_original, ZlineFile_get_block_size_compressed,
          ZlineFile_get_block_first_line, ZlineFile_get_block_line_count,
          ZlineFile_get_block_offset, h]

/-- Witness for C10 at a concrete out-of-range index on a concrete
file. -/
theorem C10_witness :
    ZlineFile_get_block_size_original default 5 = 0 ∧
    ZlineFile_get_block_size_compressed default 5 = 0 ∧
    ZlineFile_get_block_first_line default 5 = 0 ∧
    ZlineFile_get_block_line_count default 5 = 0 ∧
    ZlineFile_get_block_offset default 5 = 0 :=
  C10_oob_getters_return_zero default 5 (by decide)

/-! ## C7 -/

/-- C7 counterexample: the claim says exactly the block sizes greater
than 2^31 are rejected, but block_size = 2^31 is itself rejected
(the code rejects block_size > INT_MAX = 2^31 - 1). -/
theorem C7_counterexample : ZlineFile_create2 (2 ^ 31) = none := by decide

/-- C7 (amended): ZlineFile_create2 rejects exactly the block sizes
greater than 2^31 - 1; block_size = 0 selects the 4 MiB default; every
accepted size becomes the write block's content capacity, and the file
starts in create mode. -/
theorem C7_block_size_validation (block_size : Nat) :
    (ZlineFile_create2 block_size = none ↔ block_size > 2 ^ 31 - 1) ∧
    (block_size ≤ 2 ^ 31 - 1 →
      ∃ zf wb, ZlineFile_create2 block_size = some zf ∧
        zf.write_block = some wb ∧
        wb.content_capacity =
          (if block_size = 0 then DEFAULT_BLOCK_SIZE else block_size) ∧
        zf.mode = ZLINE_MODE_CREATE) := by
  constructor
  · by_cases h : block_size > C_INT_MAX
    · simp [ZlineFile_create2, h]
      simpa [C_INT_MAX] using h
    · simp [ZlineFile_create2, h]
      simpa [C_INT_MAX] using h
  · intro h
    have h' : ¬block_size > C_INT_MAX := by simpa [C_INT_MAX] using h
    simp only [ZlineFile_create2, if_neg h']
    refine ⟨_, _, rfl, rfl, ?_, rfl⟩
    unfold createBlock
    by_cases h0 : block_size = 0
    · simp [h0, DEFAULT_BLOCK_SIZE]
    · have hpos : ¬((block_size : Int) ≤ 0) := by
        omega
      simp [h0, hpos]

/-- Witness for C7 at block_size = 7. -/
theorem C7_witness :
    ∃ zf wb, ZlineFile_create2 7 = some zf ∧ zf.write_block = some wb ∧
      wb.content_capacity = (if (7 : Nat) = 0 then DEFAULT_BLOCK_SIZE else 7) ∧
      zf.mode = ZLINE_MODE_CREATE :=
  (C7_block_size_validation 7).2 (by norm_num)

/-! ## C6 -/

/-- C6 counterexample: the claim says ZlineFile_add_line2 returns the
number of bytes accepted; adding a 3-byte line to a freshly created
file returns 0, not 3. -/
theorem C6_counterexample :
    (ZlineFile_add_line2 idCodec ((ZlineFile_create2 0).getD default)
      [97, 98, 99] 3).1 = 0 ∧
    (ZlineFile_add_line2 idCodec ((ZlineFile_create2 0).getD default)
      [97, 98, 99] 3).1 ≠ 3 := by decide

/-- C6 (amended): in create mode ZlineFile_add_line2 returns 0 on
success; on a file not opened in create mode it returns -1 and leaves
the file unchanged (no append happens). -/
theorem C6_add_line_return (codec : Codec) (zf : ZlineFile) (line : Bytes)
    (length : Nat) :
    (zf.mode ≠ ZLINE_MODE_CREATE → ZlineFile_add_line2 codec zf line length = (-1, zf)) ∧
    (zf.mode = ZLINE_MODE_CREATE → zf.write_block.isSome →
      (ZlineFile_add_line2 codec zf line length).1 = 0) := by
  constructor
  · intro h
    simp [ZlineFile_add_line2, h]
  · intro h hwb
    obtain ⟨b0, hb0⟩ := Option.isSome_iff_exists.mp hwb
    have h2 : ((if zf.write_block.isSome then addLineInternal
        (if b0.content.length + length > b0.content_capacity
         then flushBlock codec zf else zf) length else zf)).write_block.isSome := by
      simp only [hwb, if_pos]
      apply addLineInternal_write_block_isSome
      by_cases hf : b0.content.length + length > b0.content_capacity
      · simp only [if_pos hf]
        exact flushBlock_write_block_isSome codec zf hwb
      · simpa [hf] using hwb
    simp only [hwb, if_pos] at h2
    obtain ⟨b, hb⟩ := Option.isSome_iff_exists.mp h2
    unfold ZlineFile_add_line2
    rw [if_neg (by simp [h]), hb0]
    simp only []
    rw [hb]
    by_cases hle : length ≤ b.content_capacity
    · simp [hle]
    · simp [hle]

/-- Witness for C6: a read-mode file rejects the append with -1 and
leaves the state unchanged; a create-mode file accepts with 0. -/
theorem C6_witness :
    (ZlineFile_add_line2 idCodec
       ((roundTrip idCodec 0 [[102, 111, 111]]).getD default) [1] 1 =
      (-1, (roundTrip idCodec 0 [[102, 111, 111]]).getD default)) ∧
    (ZlineFile_add_line2 idCodec ((ZlineFile_create2 0).getD default) [1] 1).1 = 0 :=
  ⟨(C6_add_line_return idCodec _ [1] 1).1 (by decide),
   (C6_add_line_return idCodec _ [1] 1).2 (by decide) (by decide)⟩

/-! ## C4 -/

/-- C4: evaluation of the code at the failing input.  Build a file with
block size 1 and lines a, b, c (so blocks 0 and 1 are flushed and the
writer's cursor, write_block.offset, is 290).  ZlineFile_line_length
for line 0 loads block 0 via readBlock — an fseek that sets fseek_flag
— and returns with the cursor left at 273 (the end of block 0) instead
of restoring 290: line_length has no cursor-restoration code, so the
claimed preservation fails and a subsequent add_line would append at
the wrong position (the C code's own assertions ftell == offset in
flushBlock and ZlineFile_get_line2 fire on this state). -/
theorem C4_line_length_leaves_cursor_moved :
    (ZlineFile_line_length idCodec
        ((buildFile idCodec 1 [[97], [98], [99]]).getD default) 0).1 = 1 ∧
    (ZlineFile_line_length idCodec
        ((buildFile idCodec 1 [[97], [98], [99]]).getD default) 0).2.fseek_flag = true ∧
    (ZlineFile_line_length idCodec
        ((buildFile idCodec 1 [[97], [98], [99]]).getD default) 0).2.filePos = 273 ∧
    ((ZlineFile_line_length idCodec
        ((buildFile idCodec 1 [[97], [98], [99]]).getD default) 0).2.write_block.map
      ZlineBlock.offset) = some 290 := by decide

/-! ## C3 -/

/-- C3 counterexample: after ZlineFile_create (default block size) and
an immediate ZlineFile_close, re-opening with ZlineFile_read fails
(returns none), while the claim says it succeeds with line_count 0. -/
theorem C3_counterexample :
    ZlineFile_read idCodec
      (ZlineFile_close idCodec ((ZlineFile_create2 0).getD default)) = none := by
  decide

/-- C3 (amended): after create and an immediate close with no lines
added, the written header records lines = 0 and blocks = 0 (close
decrements the block count past the never-flushed first block), and
ZlineFile_read rejects the file as incomplete and returns none, so
neither line_length nor get_line can be asked of a re-opened handle. -/
theorem C3_empty_file_rejected (codec : Codec) (block_size : Nat) (zf : ZlineFile)
    (h : ZlineFile_create2 block_size = some zf) :
    (ZlineFile_close codec zf).header.lines = 0 ∧
    (ZlineFile_close codec zf).header.blocks = 0 ∧
    ZlineFile_read codec (ZlineFile_close codec zf) = none := by
  have hbs : ¬block_size > C_INT_MAX := by
    by_contra hc
    simp [ZlineFile_create2, hc] at h
  simp only [ZlineFile_create2, if_neg hbs, Option.some.injEq] at h
  subst h
  refine ⟨?_, ?_, ?_⟩ <;>
    simp [ZlineFile_read, ZlineFile_close, flushBlock, readHeader, createBlock]

/-- Witness for C3 at block_size 32. -/
theorem C3_witness :
    (ZlineFile_close idCodec ((ZlineFile_create2 32).getD default)).header.lines = 0 ∧
    (ZlineFile_close idCodec ((ZlineFile_create2 32).getD default)).header.blocks = 0 ∧
    ZlineFile_read idCodec
      (ZlineFile_close idCodec ((ZlineFile_create2 32).getD default)) = none :=
  C3_empty_file_rejected idCodec 32 _ (by decide)

/-! ## C1 counterexample, C2 counterexample, C5 counterexample -/

/-- C1 counterexample: for the sequence consisting of one empty line,
the claim asserts the reopened file reports line_count = 1; in fact no
block is ever flushed (the write block's content stays empty), close
writes a header with lines = 1 but blocks = 0, and ZlineFile_read
rejects the file, returning none. -/
theorem C1_counterexample : roundTrip idCodec 0 [([] : Bytes)] = none := by decide

/-- C2 counterexample: with block size 1 and lines ab and the empty
string, the empty trailing line is recorded in line_count but its
record is never written (the write block is empty at close after the
oversize flush of line ab), so the reopened file's single block claims
two lines while its directory holds one.  get_line_slice(0, dst_len 3,
offset 0) should return the bytes of line 0 (ab, nul-terminated) but
fails: the model renders the block load as a failed read (the C code
misreads 32 bytes of directory, landing the content decompression at
the wrong file position). -/
theorem C2_counterexample :
    (ZlineFile_get_line2 idCodec
        ((roundTrip idCodec 1 [[97, 98], []]).getD default) 0 3 0).1 = none ∧
    (ZlineFile_get_line2 idCodec
        ((roundTrip idCodec 1 [[97, 98], []]).getD default) 0 3 0).1 ≠
      some [97, 98, 0] := by decide

/-- C5 counterexample: with block size 20, an 11-byte line and a
50-byte oversize line (the test_long_line scenario of test_zlines.c),
the claim says the oversize block's content is not loaded into the
read cache (content_size stays 0); in fact readBlock only skips
caching when the decompressed length also exceeds the fixed
MAX_IN_MEMORY_BLOCK = 4 MiB threshold, so the 50-byte block is loaded:
after readBlock of block 1 the cache holds 50 content bytes. -/
theorem C5_counterexample :
    ((readBlock idCodec
        ((roundTrip idCodec 20 [List.replicate 11 65, List.replicate 50 66]).getD
          default) 1).read_block.map (fun b => b.content.length)) = some 50 ∧
    ((readBlock idCodec
        ((roundTrip idCodec 20 [List.replicate 11 65, List.replicate 50 66]).getD
          default) 1).read_block.map (fun b => b.content.length)) ≠ some 0 := by
  decide

/-! ## C9 -/

/-- C9: useCompressedLineIndex refuses directories with fewer than two
entries, so a block flushed with a single line always stores its line
directory raw: the finalized index entry's bit 63 is clear (given that
the codec output fits in the 63 available bits, as any real zstd
output does), the directory on disk is the raw record array of
16 * lines bytes, and the reader's direct-streaming path can find the
content at offset + raw directory size. -/
theorem C9_single_line_block_dir_raw (codec : Codec) (zf : ZlineFile)
    (b : ZlineBlock) (hwb : zf.write_block = some b) (h1 : b.lines.length < 2)
    (hc : b.content ≠ []) (hblocks : zf.blocks ≠ [])
    (hfit : (codec.compress b.content).length < 2 ^ 63) :
    useCompressedLineIndex codec b = none ∧
    ((flushBlock codec zf).body.getLast?.map DiskBlock.dir) =
      some (DiskLineDir.raw b.lines) ∧
    ((flushBlock codec zf).body.getLast?.map (fun db => dirDiskSize db.dir)) =
      some (16 * b.lines.length) ∧
    isBlockLineIndexCompressed
      ((flushBlock codec zf).blocks.getD (zf.blocks.length - 1) default) = false := by
  have huse : useCompressedLineIndex codec b = none := by
    simp [useCompressedLineIndex, h1]
  have hcomp : compressToFile codec b.content = codec.compress b.content := by
    simp [compressToFile, hc]
  have hlen1 : zf.blocks.length - 1 < zf.blocks.length := by
    have := List.length_pos.mpr hblocks
    omega
  have hdiv : (codec.compress b.content).length / 9223372036854775808 = 0 :=
    Nat.div_eq_of_lt (by omega)
  by_cases hl : b.lines = []
  · refine ⟨huse, ?_, ?_, ?_⟩ <;>
      simp [flushBlock, hwb, hc, hl, hcomp, dirDiskSize,
            getD_set_append_self _ _ hlen1, getElem?_set_append_self _ _ hlen1,
            isBlockLineIndexCompressed, hdiv]
  · refine ⟨huse, ?_, ?_, ?_⟩ <;>
      simp [flushBlock, hwb, hc, hl, huse, hcomp, dirDiskSize,
            getD_set_append_self _ _ hlen1, getElem?_set_append_self _ _ hlen1,
            isBlockLineIndexCompressed, hdiv]

/-- Witness for C9: a file built from the single 2-byte line ab, whose
write block holds one line and nonempty content. -/
theorem C9_witness :
    useCompressedLineIndex idCodec
        (((buildFile idCodec 4 [[97, 98]]).getD default).write_block.getD default) =
      none ∧
    ((flushBlock idCodec ((buildFile idCodec 4 [[97, 98]]).getD default)).body.getLast?.map
        DiskBlock.dir) =
      some (DiskLineDir.raw
        (((buildFile idCodec 4 [[97, 98]]).getD default).write_block.getD default).lines) ∧
    ((flushBlock idCodec ((buildFile idCodec 4 [[97, 98]]).getD default)).body.getLast?.map
        (fun db => dirDiskSize db.dir)) =
      some (16 *
        (((buildFile idCodec 4 [[97, 98]]).getD default).write_block.getD default).lines.length) ∧
    isBlockLineIndexCompressed
      ((flushBlock idCodec ((buildFile idCodec 4 [[97, 98]]).getD default)).blocks.getD
        ((((buildFile idCodec 4 [[97, 98]]).getD default)).blocks.length - 1) default) =
      false :=
  C9_single_line_block_dir_raw idCodec _ _ (by decide) (by decide) (by decide)
    (by decide) (by decide)

/-! ## The writer invariant: supporting definitions -/

/-- dirFits off ls ss: the line records ls describe the byte strings ss
laid out contiguously starting at offset off (each record's offset is
the running total, its length the string's length). -/
def dirFits : Nat → List ZlineIndexLine → List Bytes → Prop
  | _, [], [] => True
  | off, l :: ls, s :: ss =>
      l.offset = off ∧ l.length = s.length ∧ dirFits (off + s.length) ls ss
  | _, _, _ => False

theorem dirFits_length (off : Nat) (ls : List ZlineIndexLine) (ss : List Bytes)
    (h : dirFits off ls ss) : ls.length = ss.length := by
  induction ls generalizing off ss with
  | nil => cases ss with
    | nil => rfl
    | cons s ss => simp [dirFits] at h
  | cons l ls ih =>
    cases ss with
    | nil => simp [dirFits] at h
    | cons s ss =>
      obtain ⟨-, -, h3⟩ := h
      simpa using ih (off + s.length) ss h3

theorem dirFits_concat (off : Nat) (ls : List ZlineIndexLine) (ss : List Bytes)
    (t : Bytes) (h : dirFits off ls ss) :
    dirFits off (ls ++ [⟨off + ss.flatten.length, t.length⟩]) (ss ++ [t]) := by
  induction ls generalizing off ss with
  | nil =>
    cases ss with
    | nil => simp [dirFits]
    | cons s ss => simp [dirFits] at h
  | cons l ls ih =>
    cases ss with
    | nil => simp [dirFits] at h
    | cons s ss =>
      obtain ⟨h1, h2, h3⟩ := h
      refine ⟨h1, h2, ?_⟩
      have := ih (off + s.length) ss h3
      have harith : off + (s :: ss).flatten.length
          = off + s.length + ss.flatten.length := by
        simp [Nat.add_assoc]
      rw [harith]
      exact this

theorem dirFits_getD (off : Nat) (ls : List ZlineIndexLine) (ss : List Bytes)
    (h : dirFits off ls ss) (j : Nat) (hj : j < ss.length) :
    (ls.getD j default).offset = off + ((ss.take j).flatten).length ∧
    (ls.getD j default).length = (ss.getD j []).length := by
  induction ls generalizing off ss j with
  | nil => cases ss with
    | nil => simp at hj
    | cons s ss => simp [dirFits] at h
  | cons l ls ih =>
    cases ss with
    | nil => simp [dirFits] at h
    | cons s ss =>
      obtain ⟨h1, h2, h3⟩ := h
      cases j with
      | zero => simpa using ⟨h1, h2⟩
      | succ j =>
        have := ih (off + s.length) ss h3 j (by simpa using hj)
        simpa [Nat.add_assoc] using this

/-- The file offset at which block i of the data region starts: the
header plus the on-disk sizes of the preceding blocks. -/
def offAt (body : List DiskBlock) (i : Nat) : Nat :=
  HEADER_SIZE + ((body.take i).map diskBlockSize).sum

/-- The index of the first line of block i: the number of lines held by
the preceding chunks. -/
def lineAt (css : List (List Bytes)) (i : Nat) : Nat :=
  ((css.take i).flatten).length

theorem offAt_concat (body : List DiskBlock) (db : DiskBlock) (i : Nat)
    (h : i ≤ body.length) : offAt (body ++ [db]) i = offAt body i := by
  simp [offAt, List.take_append_of_le_length h]

theorem offAt_concat_end (body : List DiskBlock) (db : DiskBlock) :
    offAt (body ++ [db]) (body.length + 1) = offAt body body.length + diskBlockSize db := by
  simp [offAt, Nat.add_assoc]

theorem offAt_succ (body : List DiskBlock) (i : Nat) (h : i < body.length) :
    offAt body (i + 1) = offAt body i + diskBlockSize (body.getD i default) := by
  have hlen : i < (body.map diskBlockSize).length := by simpa using h
  have hg : body.getD i default = body[i] := by
    rw [List.getD_eq_getElem?_getD, List.getElem?_eq_getElem h]
    rfl
  have h1 : ((body.take (i + 1)).map diskBlockSize).sum
      = ((body.take i).map diskBlockSize).sum + diskBlockSize body[i] := by
    rw [List.map_take, List.map_take, List.sum_take_succ _ i hlen]
    simp
  rw [offAt, offAt, h1, hg, Nat.add_assoc]

theorem lineAt_concat (css : List (List Bytes)) (ss : List Bytes) (i : Nat)
    (h : i ≤ css.length) : lineAt (css ++ [ss]) i = lineAt css i := by
  simp [lineAt, List.take_append_of_le_length h]

theorem lineAt_concat_end (css : List (List Bytes)) (ss : List Bytes) :
    lineAt (css ++ [ss]) (css.length + 1) = css.flatten.length + ss.length := by
  simp [lineAt]

theorem lineAt_succ (css : List (List Bytes)) (i : Nat) (h : i < css.length) :
    lineAt css (i + 1) = lineAt css i + (css.getD i []).length := by
  have hlen : i < (css.map List.length).length := by simpa using h
  have hg : css.getD i [] = css[i] := by
    rw [List.getD_eq_getElem?_getD, List.getElem?_eq_getElem h]
    rfl
  rw [lineAt, lineAt, List.length_flatten, List.length_flatten,
    List.map_take, List.map_take, List.sum_take_succ _ i hlen, hg]
  simp

theorem lineAt_length (css : List (List Bytes)) :
    lineAt css css.length = css.flatten.length := by
  simp [lineAt]

theorem getD_set_self {α : Type} (l : List α) (i : Nat) (a d : α) (h : i < l.length) :
    (l.set i a).getD i d = a := by
  simp [List.getD_eq_getElem?_getD, List.getElem?_set_self h]

theorem getD_set_ne {α : Type} (l : List α) (i j : Nat) (a d : α) (h : i ≠ j) :
    (l.set i a).getD j d = l.getD j d := by
  simp [List.getD_eq_getElem?_getD, List.getElem?_set_ne h]

theorem getD_concat_self {α : Type} (l : List α) (a d : α) :
    (l ++ [a]).getD l.length d = a := by
  simp [List.getD_eq_getElem?_getD]

theorem getD_append_left {α : Type} (l l' : List α) (i : Nat) (d : α)
    (h : i < l.length) : (l ++ l').getD i d = l.getD i d :=
  List.getD_append l l' d i h

theorem maxLenAcc_concat (S : List Bytes) (s : Bytes) :
    maxLenAcc (S ++ [s]) = max s.length (maxLenAcc S) := by
  simp [maxLenAcc, List.foldl_concat]

/-- useCompressedLineIndex, when it chooses compression, reports the
compressed size of the serialized directory, strictly beating the raw
array even with the 8-byte prefix, and only for 2 or more lines. -/
theorem useCompressedLineIndex_spec (codec : Codec) (b : ZlineBlock) (clen : Nat)
    (h : useCompressedLineIndex codec b = some clen) :
    clen = (codec.compress (serializeLines b.lines)).length ∧
    clen + 8 < b.lines.length * 16 ∧ 2 ≤ b.lines.length := by
  unfold useCompressedLineIndex at h
  by_cases h2 : b.lines.length < 2
  · simp [h2] at h
  · rw [if_neg h2] at h
    by_cases h3 : (codec.compress (serializeLines b.lines)).length + 8 < b.lines.length * 16
    · rw [if_pos h3] at h
      injection h with h
      subst h
      exact ⟨rfl, by omega, by omega⟩
    · rw [if_neg h3] at h
      exact absurd h (by simp)

/-- The flag contributed to compressed_length_x by the directory form. -/
def dirFlag : DiskLineDir → Nat
  | .raw _ => 0
  | .compressed _ _ => LINE_INDEX_COMPRESSED_FLAG

/-- Side facts recorded about a compressed on-disk directory: its
stored length is the codec output on the serialized records, it beat
the raw array, and it has at least two entries. -/
def dirCompOk (codec : Codec) : DiskLineDir → Prop
  | .raw _ => True
  | .compressed sl ls =>
      sl = (codec.compress (serializeLines ls)).length ∧
      sl + 8 < ls.length * 16 ∧ 2 ≤ ls.length

/-- PerBlock: what the writer guarantees about one flushed block: the
chunk ss of consecutive lines it holds, its offset off, and the index
of its first line.  The disk record db, the index entry ent and ss
agree. -/
structure PerBlock (codec : Codec) (cap : Nat) (db : DiskBlock)
    (ent : ZlineIndexBlock) (ss : List Bytes) (off : Nat) (first : Nat) : Prop where
  dbOff : db.offset = off
  entOff : ent.offset = off
  dirOk : dirFits 0 (dirLines db.dir) ss
  comp : db.contentComp = codec.compress ss.flatten
  declen : ent.decompressed_length = ss.flatten.length
  clenx : ent.compressed_length_x = db.contentComp.length + dirFlag db.dir
  dirComp : dirCompOk codec db.dir
  ssNe : ss ≠ []
  flatNe : ss.flatten ≠ []
  szBound : ss.flatten.length ≤ cap ∨ ∃ s ∈ ss, ss.flatten.length = s.length

/-- CoreInv: the invariant of a file being built.  S is the sequence of
lines added so far; css are the chunks already flushed to disk (one per
body block, in order) and ws the lines still sitting in the write
block wb. -/
structure CoreInv (codec : Codec) (cap : Nat) (zf : ZlineFile) (S : List Bytes)
    (css : List (List Bytes)) (ws : List Bytes) (wb : ZlineBlock) : Prop where
  mode : zf.mode = ZLINE_MODE_CREATE
  dataOff : zf.data_offset = HEADER_SIZE
  rb : zf.read_block = none
  wbeq : zf.write_block = some wb
  split : S = css.flatten ++ ws
  lineCount : zf.line_count = S.length
  maxLen : zf.max_line_len = maxLenAcc S
  blocksLen : zf.blocks.length = zf.body.length + 1
  startsLen : zf.block_starts.length = zf.body.length
  cssLen : css.length = zf.body.length
  per : ∀ i, i < zf.body.length →
    PerBlock codec cap (zf.body.getD i default) (zf.blocks.getD i default)
      (css.getD i []) (offAt zf.body i) (lineAt css i)
  starts : ∀ i, i < zf.body.length → zf.block_starts.getD i 0 = lineAt css (i + 1)
  capEq : wb.content_capacity = cap
  capPos : 1 ≤ cap
  capLe : cap ≤ C_INT_MAX
  wbIdx : wb.idx = (zf.body.length : Int)
  wbOff : wb.offset = offAt zf.body zf.body.length
  posEq : zf.filePos = wb.offset
  wbDir : dirFits 0 wb.lines ws
  wbContent : wb.content = ws.flatten
  szB : ws.flatten.length ≤ cap ∨ ∃ t ∈ ws, ws.flatten.length = t.length
  wbFirst : ws ≠ [] → wb.first_line = css.flatten.length

/-- TailOk: if every line still buffered in the write block is empty
(their concatenation is empty) then either every line added so far is
empty or the last nonempty line was an oversize line (longer than the
block capacity).  This tracks the only two histories that can leave
empty lines stranded in an empty-content write block. -/
def TailOk (cap : Nat) (S : List Bytes) (ws : List Bytes) : Prop :=
  ws.flatten = [] →
    (∀ s ∈ S, s = []) ∨
    (∃ i0, lastNonemptyIdx? S = some i0 ∧ (S.getD i0 []).length > cap)

/-- CreateInv: the full invariant carried through the build fold.  The
final conjunct: between two public add_line calls the buffered bytes
never exceed the capacity (the flush decision keeps them bounded). -/
def CreateInv (codec : Codec) (cap : Nat) (zf : ZlineFile) (S : List Bytes) : Prop :=
  ∃ css ws wb, CoreInv codec cap zf S css ws wb ∧ TailOk cap S ws ∧
    ws.flatten.length ≤ cap

/-! ### lastNonemptyIdx? lemmas -/

theorem lastNonemptyIdx?_concat_nonempty (S : List Bytes) (s : Bytes) (hs : s ≠ []) :
    lastNonemptyIdx? (S ++ [s]) = some S.length := by
  unfold lastNonemptyIdx?
  have hlen : (S ++ [s]).length = S.length + 1 := by simp
  rw [hlen, List.range_succ, List.filter_append]
  have hk : (List.filter (fun i => decide ((S ++ [s]).getD i [] ≠ [])) [S.length])
      = [S.length] := by
    simp [List.filter, getD_concat_self, hs]
  rw [hk, List.getLast?_concat]

theorem lastNonemptyIdx?_concat_empty (S : List Bytes) :
    lastNonemptyIdx? (S ++ [([] : Bytes)]) = lastNonemptyIdx? S := by
  unfold lastNonemptyIdx?
  have hlen : (S ++ [([] : Bytes)]).length = S.length + 1 := by simp
  rw [hlen, List.range_succ, List.filter_append]
  have hk : (List.filter (fun i => decide ((S ++ [([] : Bytes)]).getD i [] ≠ []))
      [S.length]) = [] := by
    simp [List.filter, getD_concat_self]
  rw [hk, List.append_nil]
  congr 1
  apply List.filter_congr
  intro i hi
  have hi' : i < S.length := List.mem_range.mp hi
  rw [getD_append_left _ _ _ _ hi']

theorem lastNonemptyIdx?_spec (S : List Bytes) (i : Nat)
    (h : lastNonemptyIdx? S = some i) : i < S.length ∧ S.getD i [] ≠ [] := by
  unfold lastNonemptyIdx? at h
  have hmem : i ∈ (List.range S.length).filter (fun j => decide (S.getD j [] ≠ [])) := by
    cases hl : (List.range S.length).filter (fun j => decide (S.getD j [] ≠ [])) with
    | nil => rw [hl] at h; simp at h
    | cons a as =>
      rw [hl] at h
      exact List.mem_of_mem_getLast? h
  have h1 := List.mem_filter.mp hmem
  exact ⟨List.mem_range.mp h1.1, by simpa using h1.2⟩

theorem lastNonemptyIdx?_all_empty (S : List Bytes)
    (h : lastNonemptyIdx? S = none) : ∀ s ∈ S, s = [] := by
  intro s hs
  by_contra hne
  obtain ⟨j, hj, rfl⟩ := List.getElem_of_mem hs
  have hjm : j ∈ (List.range S.length).filter (fun i => decide (S.getD i [] ≠ [])) := by
    refine List.mem_filter.mpr ⟨List.mem_range.mpr hj, ?_⟩
    simp only [List.getD_eq_getElem?_getD, List.getElem?_eq_getElem hj,
      Option.getD_some, decide_eq_true_eq]
    exact hne
  unfold lastNonemptyIdx? at h
  rw [List.getLast?_eq_none_iff] at h
  rw [h] at hjm
  simp at hjm

/-! ### The invariant holds at creation and is preserved by flushBlock -/

theorem create_CoreInv (codec : Codec) (block_size : Nat) (zf : ZlineFile)
    (h : ZlineFile_create2 block_size = some zf) :
    ∃ wb, CoreInv codec (capOf block_size) zf [] [] [] wb := by
  have hbs : ¬block_size > C_INT_MAX := by
    by_contra hc
    simp [ZlineFile_create2, hc] at h
  simp only [ZlineFile_create2, if_neg hbs, Option.some.injEq] at h
  subst h
  refine ⟨{ createBlock (((if block_size = 0 then DEFAULT_BLOCK_SIZE else block_size) : Nat) : Int) with
      idx := 0, offset := HEADER_SIZE }, ?_⟩
  have hcap : (createBlock (((if block_size = 0 then DEFAULT_BLOCK_SIZE else block_size) : Nat) : Int)).content_capacity = capOf block_size := by
    unfold createBlock capOf
    by_cases h0 : block_size = 0
    · simp [h0, DEFAULT_BLOCK_SIZE]
    · have hpos : ¬((block_size : Int) ≤ 0) := by omega
      simp [h0, hpos]
  refine
    { mode := rfl, dataOff := rfl, rb := rfl, wbeq := rfl,
      split := rfl, lineCount := rfl, maxLen := rfl,
      blocksLen := rfl, startsLen := rfl, cssLen := rfl,
      per := ?_, starts := ?_,
      capEq := hcap, capPos := ?_, capLe := ?_,
      wbIdx := rfl, wbOff := rfl, posEq := rfl,
      wbDir := trivial, wbContent := rfl, szB := Or.inl (Nat.zero_le _),
      wbFirst := fun h' => absurd rfl h' }
  · intro i hi
    simp at hi
  · intro i hi
    simp at hi
  · unfold capOf
    by_cases h0 : block_size = 0
    · simp [h0, DEFAULT_BLOCK_SIZE]
    · simp [h0]
      omega
  · unfold capOf C_INT_MAX
    unfold C_INT_MAX at hbs
    by_cases h0 : block_size = 0
    · simp [h0, DEFAULT_BLOCK_SIZE]
    · simp [h0]
      omega

/-- flushBlock with an uncompressed line directory, written out as an
explicit record. -/
theorem flushBlock_eq_raw (codec : Codec) (zf : ZlineFile) (wb : ZlineBlock)
    (hwb : zf.write_block = some wb) (hc : wb.content ≠ []) (hl : wb.lines ≠ [])
    (huse : useCompressedLineIndex codec wb = none) :
    flushBlock codec zf = { zf with
      blocks := zf.blocks.set (zf.blocks.length - 1)
          ⟨wb.offset, (codec.compress wb.content).length, wb.content.length⟩ ++
        [⟨wb.offset + 16 * wb.lines.length + (codec.compress wb.content).length, 0, 0⟩],
      block_starts := (if wb.idx > 0
          then zf.block_starts.set (wb.idx.toNat - 1) wb.first_line
          else zf.block_starts) ++ [zf.line_count],
      body := zf.body ++ [⟨wb.offset, .raw wb.lines, codec.compress wb.content⟩],
      filePos := wb.offset + 16 * wb.lines.length + (codec.compress wb.content).length,
      write_block := some ({ wb with
        idx := (zf.blocks.length : Int),
        offset := wb.offset + 16 * wb.lines.length + (codec.compress wb.content).length,
        lines := [], content := [] }) } := by
  simp [flushBlock, hwb, hc, hl, huse, compressToFile, LINE_INDEX_COMPRESSED_FLAG]

/-- flushBlock with a compressed line directory, written out as an
explicit record. -/
theorem flushBlock_eq_compressed (codec : Codec) (zf : ZlineFile) (wb : ZlineBlock)
    (hwb : zf.write_block = some wb) (hc : wb.content ≠ []) (hl : wb.lines ≠ [])
    (clen : Nat) (huse : useCompressedLineIndex codec wb = some clen) :
    flushBlock codec zf = { zf with
      blocks := zf.blocks.set (zf.blocks.length - 1)
          ⟨wb.offset, (codec.compress wb.content).length + LINE_INDEX_COMPRESSED_FLAG,
           wb.content.length⟩ ++
        [⟨wb.offset + (8 + clen) + (codec.compress wb.content).length, 0, 0⟩],
      block_starts := (if wb.idx > 0
          then zf.block_starts.set (wb.idx.toNat - 1) wb.first_line
          else zf.block_starts) ++ [zf.line_count],
      body := zf.body ++ [⟨wb.offset, .compressed clen wb.lines, codec.compress wb.content⟩],
      filePos := wb.offset + (8 + clen) + (codec.compress wb.content).length,
      write_block := some ({ wb with
        idx := (zf.blocks.length : Int),
        offset := wb.offset + (8 + clen) + (codec.compress wb.content).length,
        lines := [], content := [] }) } := by
  simp [flushBlock, hwb, hc, hl, huse, compressToFile]

/-- flushBlock preserves the invariant when the write block has
content: the buffered chunk ws becomes a new disk block and the write
block resets.  Parametrized over the on-disk directory form chosen. -/
theorem flushBlock_preserves_aux (codec : Codec) (cap : Nat) (zf : ZlineFile)
    (S : List Bytes) (css : List (List Bytes)) (ws : List Bytes) (wb : ZlineBlock)
    (h : CoreInv codec cap zf S css ws wb) (hne : ws.flatten ≠ [])
    (dir : DiskLineDir) (lil : Nat)
    (hdl : dirLines dir = wb.lines) (hds : dirDiskSize dir = lil)
    (hdc : dirCompOk codec dir)
    (heq : flushBlock codec zf = { zf with
      blocks := zf.blocks.set (zf.blocks.length - 1)
          ⟨wb.offset, (codec.compress wb.content).length + dirFlag dir, wb.content.length⟩ ++
        [⟨wb.offset + lil + (codec.compress wb.content).length, 0, 0⟩],
      block_starts := (if wb.idx > 0
          then zf.block_starts.set (wb.idx.toNat - 1) wb.first_line
          else zf.block_starts) ++ [zf.line_count],
      body := zf.body ++ [⟨wb.offset, dir, codec.compress wb.content⟩],
      filePos := wb.offset + lil + (codec.compress wb.content).length,
      write_block := some ({ wb with
        idx := (zf.blocks.length : Int),
        offset := wb.offset + lil + (codec.compress wb.content).length,
        lines := [], content := [] }) }) :
    ∃ wb', CoreInv codec cap (flushBlock codec zf) S (css ++ [ws]) [] wb' := by
  obtain ⟨hM, hD, hR, hW, hS, hL, hX, hBL, hSL, hCL, hP, hST, hCE, hCP, hCLe,
    hWI, hWO, hPE, hWD, hWC, hSzB, hWF⟩ := h
  have hwsne : ws ≠ [] := by
    intro e
    subst e
    exact hne rfl
  have hN : zf.blocks.length - 1 = zf.body.length := by omega
  refine ⟨{ wb with
      idx := (zf.blocks.length : Int),
      offset := wb.offset + lil + (codec.compress wb.content).length,
      lines := [], content := [] }, ?_⟩
  rw [heq]
  have hstlen : ((if wb.idx > 0
      then zf.block_starts.set (wb.idx.toNat - 1) wb.first_line
      else zf.block_starts)).length = zf.body.length := by
    by_cases hc : wb.idx > 0 <;> simp [hc, hSL]
  refine
    { mode := hM, dataOff := hD, rb := hR, wbeq := rfl,
      split := ?_, lineCount := hL, maxLen := hX,
      blocksLen := ?_, startsLen := ?_, cssLen := ?_,
      per := ?_, starts := ?_,
      capEq := hCE, capPos := hCP, capLe := hCLe,
      wbIdx := ?_, wbOff := ?_, posEq := rfl,
      wbDir := trivial, wbContent := rfl, szB := Or.inl (Nat.zero_le _),
      wbFirst := fun h' => absurd rfl h' }
  · rw [List.flatten_append]
    simpa using hS
  · simp [hBL]
  · simp [hstlen]
  · simp [hCL]
  · intro i hi
    have hiN : i < zf.body.length + 1 := by simpa using hi
    by_cases hlt : i < zf.body.length
    · have e1 : (zf.body ++ [(⟨wb.offset, dir, codec.compress wb.content⟩ : DiskBlock)]).getD i default
          = zf.body.getD i default := getD_append_left _ _ _ _ hlt
      have e2 : ((zf.blocks.set (zf.blocks.length - 1)
            ⟨wb.offset, (codec.compress wb.content).length + dirFlag dir, wb.content.length⟩) ++
          [(⟨wb.offset + lil + (codec.compress wb.content).length, 0, 0⟩ : ZlineIndexBlock)]).getD i default
          = zf.blocks.getD i default := by
        rw [getD_append_left _ _ _ _ (by simp; omega)]
        exact getD_set_ne _ _ _ _ _ (by omega)
      have e3 : (css ++ [ws]).getD i [] = css.getD i [] :=
        getD_append_left _ _ _ _ (by omega)
      have e4 : offAt (zf.body ++ [(⟨wb.offset, dir, codec.compress wb.content⟩ : DiskBlock)]) i
          = offAt zf.body i := offAt_concat _ _ _ (by omega)
      have e5 : lineAt (css ++ [ws]) i = lineAt css i := lineAt_concat _ _ _ (by omega)
      rw [e1, e2, e3, e4, e5]
      exact hP i hlt
    · have hieq : i = zf.body.length := by omega
      subst hieq
      have e1 : (zf.body ++ [(⟨wb.offset, dir, codec.compress wb.content⟩ : DiskBlock)]).getD zf.body.length default
          = ⟨wb.offset, dir, codec.compress wb.content⟩ := getD_concat_self _ _ _
      have e2 : ((zf.blocks.set (zf.blocks.length - 1)
            ⟨wb.offset, (codec.compress wb.content).length + dirFlag dir, wb.content.length⟩) ++
          [(⟨wb.offset + lil + (codec.compress wb.content).length, 0, 0⟩ : ZlineIndexBlock)]).getD zf.body.length default
          = ⟨wb.offset, (codec.compress wb.content).length + dirFlag dir, wb.content.length⟩ := by
        rw [hN]
        exact getD_set_append_self zf.blocks zf.body.length (by omega) _ _ _
      have e3 : (css ++ [ws]).getD zf.body.length [] = ws := by
        rw [← hCL]
        exact getD_concat_self _ _ _
      have e4 : offAt (zf.body ++ [(⟨wb.offset, dir, codec.compress wb.content⟩ : DiskBlock)]) zf.body.length
          = wb.offset := by
        rw [offAt_concat _ _ _ (le_refl _)]
        exact hWO.symm
      have e5 : lineAt (css ++ [ws]) zf.body.length = css.flatten.length := by
        rw [lineAt_concat _ _ _ (by omega)]
        rw [← hCL, lineAt_length]
      rw [e1, e2, e3, e4, e5]
      exact
        { dbOff := rfl, entOff := rfl,
          dirOk := by rw [hdl]; exact hWD,
          comp := by rw [← hWC],
          declen := by rw [← hWC],
          clenx := rfl,
          dirComp := hdc,
          ssNe := hwsne,
          flatNe := hne,
          szBound := hSzB }
  · intro i hi
    have hiN : i < zf.body.length + 1 := by simpa using hi
    by_cases hlt : i < zf.body.length
    · have e0 : ((if wb.idx > 0
          then zf.block_starts.set (wb.idx.toNat - 1) wb.first_line
          else zf.block_starts) ++ [zf.line_count]).getD i 0
          = (if wb.idx > 0
             then zf.block_starts.set (wb.idx.toNat - 1) wb.first_line
             else zf.block_starts).getD i 0 :=
        getD_append_left _ _ _ _ (by omega)
      have e5 : lineAt (css ++ [ws]) (i + 1) = lineAt css (i + 1) :=
        lineAt_concat _ _ _ (by omega)
      rw [e0, e5]
      by_cases hc : wb.idx > 0
      · rw [if_pos hc]
        have hNpos : 1 ≤ zf.body.length := by
          rw [hWI] at hc
          omega
        have hidx : wb.idx.toNat - 1 = zf.body.length - 1 := by
          rw [hWI]
          simp
        by_cases hie : i = zf.body.length - 1
        · subst hie
          rw [hidx, getD_set_self _ _ _ _ (by omega)]
          rw [hWF hwsne]
          have : zf.body.length - 1 + 1 = zf.body.length := by omega
          rw [this, ← hCL, lineAt_length]
        · rw [hidx, getD_set_ne _ _ _ _ _ (by omega)]
          exact hST i hlt
      · rw [if_neg hc]
        exact hST i hlt
    · have hieq : i = zf.body.length := by omega
      subst hieq
      have e0 : ((if wb.idx > 0
          then zf.block_starts.set (wb.idx.toNat - 1) wb.first_line
          else zf.block_starts) ++ [zf.line_count]).getD zf.body.length 0
          = zf.line_count := by
        rw [← hstlen]
        exact getD_concat_self _ _ _
      rw [e0]
      have e1 : lineAt (css ++ [ws]) (zf.body.length + 1) = (css ++ [ws]).flatten.length := by
        rw [← hCL]
        have : css.length + 1 = (css ++ [ws]).length := by simp
        rw [this, lineAt_length]
      rw [e1, hL, hS]
      simp
  · simp [hBL]
  · have hlen' : (zf.body ++ [(⟨wb.offset, dir, codec.compress wb.content⟩ : DiskBlock)]).length
        = zf.body.length + 1 := by simp
    show wb.offset + lil + (codec.compress wb.content).length = _
    rw [hlen', offAt_concat_end, ← hWO, diskBlockSize]
    simp [hds, Nat.add_assoc]

/-- flushBlock preserves the invariant whenever the write block has
content. -/
theorem flushBlock_preserves (codec : Codec) (cap : Nat) (zf : ZlineFile)
    (S : List Bytes) (css : List (List Bytes)) (ws : List Bytes) (wb : ZlineBlock)
    (h : CoreInv codec cap zf S css ws wb) (hne : ws.flatten ≠ []) :
    ∃ wb', CoreInv codec cap (flushBlock codec zf) S (css ++ [ws]) [] wb' := by
  have hc : wb.content ≠ [] := by
    rw [h.wbContent]
    exact hne
  have hl : wb.lines ≠ [] := by
    intro e
    have hlen := dirFits_length 0 wb.lines ws h.wbDir
    rw [e] at hlen
    cases ws with
    | nil => exact hne rfl
    | cons a as => simp at hlen
  cases huse : useCompressedLineIndex codec wb with
  | none =>
    exact flushBlock_preserves_aux codec cap zf S css ws wb h hne (.raw wb.lines)
      (16 * wb.lines.length) rfl rfl trivial
      (by rw [flushBlock_eq_raw codec zf wb h.wbeq hc hl huse]; simp [dirFlag])
  | some clen =>
    obtain ⟨hc1, hc2, hc3⟩ := useCompressedLineIndex_spec codec wb clen huse
    exact flushBlock_preserves_aux codec cap zf S css ws wb h hne
      (.compressed clen wb.lines) (8 + clen) rfl rfl ⟨hc1, hc2, hc3⟩
      (by rw [flushBlock_eq_compressed codec zf wb h.wbeq hc hl clen huse]; simp [dirFlag])

/-- addLineInternal written out as an explicit record. -/
theorem addLineInternal_eq (zf : ZlineFile) (wb : ZlineBlock) (n : Nat)
    (hwb : zf.write_block = some wb) :
    addLineInternal zf n = { zf with
      write_block := some ({ wb with
        lines := wb.lines ++ [⟨wb.content.length, n⟩],
        first_line := if wb.lines = [] then zf.line_count else wb.first_line }),
      block_starts := if wb.lines = [] ∧ wb.idx > 0
        then zf.block_starts.set (wb.idx.toNat - 1) zf.line_count
        else zf.block_starts,
      line_count := zf.line_count + 1,
      max_line_len := max n zf.max_line_len } := by
  simp [addLineInternal, hwb]

/-- The state reached by addLineInternal followed by copying the line
bytes into the write block preserves the invariant, the new line
joining the buffered chunk.  The size side condition for the grown
chunk is taken as a hypothesis so that both the in-capacity copy and
the oversize direct-flush intermediate state are covered. -/
theorem addLine_state_CoreInv (codec : Codec) (cap : Nat) (zf : ZlineFile)
    (S : List Bytes) (css : List (List Bytes)) (ws : List Bytes) (wb : ZlineBlock)
    (s : Bytes) (h : CoreInv codec cap zf S css ws wb)
    (hsz : (ws ++ [s]).flatten.length ≤ cap ∨
      ∃ t ∈ ws ++ [s], (ws ++ [s]).flatten.length = t.length) :
    CoreInv codec cap
      ({ zf with
        write_block := some ({ wb with
          lines := wb.lines ++ [⟨wb.content.length, s.length⟩],
          first_line := if wb.lines = [] then zf.line_count else wb.first_line,
          content := wb.content ++ s.take s.length }),
        block_starts := if wb.lines = [] ∧ wb.idx > 0
          then zf.block_starts.set (wb.idx.toNat - 1) zf.line_count
          else zf.block_starts,
        line_count := zf.line_count + 1,
        max_line_len := max s.length zf.max_line_len })
      (S ++ [s]) css (ws ++ [s])
      ({ wb with
        lines := wb.lines ++ [⟨wb.content.length, s.length⟩],
        first_line := if wb.lines = [] then zf.line_count else wb.first_line,
        content := wb.content ++ s.take s.length }) := by
  have hlen := dirFits_length 0 wb.lines ws h.wbDir
  refine
    { mode := h.mode, dataOff := h.dataOff, rb := h.rb, wbeq := rfl,
      split := by rw [h.split, List.append_assoc],
      lineCount := by simp [h.lineCount],
      maxLen := by rw [maxLenAcc_concat, h.maxLen],
      blocksLen := h.blocksLen,
      startsLen := ?_, cssLen := h.cssLen,
      per := h.per, starts := ?_,
      capEq := h.capEq, capPos := h.capPos, capLe := h.capLe,
      wbIdx := h.wbIdx, wbOff := h.wbOff, posEq := h.posEq,
      wbDir := ?_, wbContent := ?_, szB := hsz, wbFirst := ?_ }
  · by_cases hcnd : wb.lines = [] ∧ wb.idx > 0 <;> simp [hcnd, h.startsLen]
  · intro i hi
    by_cases hcnd : wb.lines = [] ∧ wb.idx > 0
    · rw [if_pos hcnd]
      obtain ⟨hls, hidx⟩ := hcnd
      have hws : ws = [] := by
        rw [hls] at hlen
        cases ws with
        | nil => rfl
        | cons a as => simp at hlen
      have hNpos : 1 ≤ zf.body.length := by
        have := h.wbIdx
        rw [this] at hidx
        omega
      have hid : wb.idx.toNat - 1 = zf.body.length - 1 := by
        rw [h.wbIdx]
        simp
      by_cases hie : i = zf.body.length - 1
      · subst hie
        rw [hid, getD_set_self _ _ _ _ (by rw [h.startsLen]; omega)]
        have h1 : zf.body.length - 1 + 1 = zf.body.length := by omega
        rw [h1, h.lineCount, h.split, hws, ← h.cssLen, List.append_nil,
          lineAt_length]
      · rw [hid, getD_set_ne _ _ _ _ _ (by omega)]
        exact h.starts i hi
    · rw [if_neg hcnd]
      exact h.starts i hi
  · have he : (⟨wb.content.length, s.length⟩ : ZlineIndexLine)
        = ⟨0 + ws.flatten.length, s.length⟩ := by
      simp [h.wbContent]
    rw [he]
    exact dirFits_concat 0 wb.lines ws s h.wbDir
  · simp [h.wbContent, List.take_length]
  · intro _
    by_cases hls : wb.lines = []
    · rw [if_pos hls]
      have hws : ws = [] := by
        rw [hls] at hlen
        cases ws with
        | nil => rfl
        | cons a as => simp at hlen
      rw [h.lineCount, h.split, hws, List.append_nil]
    · rw [if_neg hls]
      have hws : ws ≠ [] := by
        intro e
        rw [e] at hlen
        exact hls (by cases hwl : wb.lines with
          | nil => rfl
          | cons a as => rw [hwl] at hlen; simp at hlen)
      exact h.wbFirst hws

/-- flushBlock does nothing when the write block's content is empty. -/
theorem flushBlock_noop (codec : Codec) (zf : ZlineFile) (wb : ZlineBlock)
    (hwb : zf.write_block = some wb) (hc : wb.content = []) :
    flushBlock codec zf = zf := by
  simp [flushBlock, hwb, hc]

/-- ZlineFile_add_line2, small-line path, written out as an explicit
record: after the optional flush (whose result is zf1), the line is
recorded and its bytes are appended to the write block. -/
theorem add_line2_eq_small (codec : Codec) (zf : ZlineFile) (s : Bytes)
    (wb : ZlineBlock) (zf1 : ZlineFile) (wb1 : ZlineBlock)
    (hmode : zf.mode = ZLINE_MODE_CREATE) (hwb : zf.write_block = some wb)
    (hzf1 : (if wb.content.length + s.length > wb.content_capacity
             then flushBlock codec zf else zf) = zf1)
    (hwb1 : zf1.write_block = some wb1)
    (hfit : s.length ≤ wb1.content_capacity) :
    ZlineFile_add_line2 codec zf s s.length = (0, { zf1 with
      write_block := some ({ wb1 with
        lines := wb1.lines ++ [⟨wb1.content.length, s.length⟩],
        first_line := if wb1.lines = [] then zf1.line_count else wb1.first_line,
        content := wb1.content ++ s.take s.length }),
      block_starts := if wb1.lines = [] ∧ wb1.idx > 0
        then zf1.block_starts.set (wb1.idx.toNat - 1) zf1.line_count
        else zf1.block_starts,
      line_count := zf1.line_count + 1,
      max_line_len := max s.length zf1.max_line_len }) := by
  rw [ZlineFile_add_line2]
  rw [if_neg (by simp [hmode]), hwb]
  simp only [hzf1]
  rw [addLineInternal_eq zf1 wb1 s.length hwb1]
  simp [hfit]

/-- ZlineFile_add_line2, oversize path, written out explicitly: after
the (always-attempted) flush resulting in zf1, the line is recorded,
the write block's content buffer is swapped for the caller's bytes and
flushed as its own block. -/
theorem add_line2_eq_big (codec : Codec) (zf : ZlineFile) (s : Bytes)
    (wb : ZlineBlock) (zf1 : ZlineFile) (wb1 : ZlineBlock)
    (hmode : zf.mode = ZLINE_MODE_CREATE) (hwb : zf.write_block = some wb)
    (hzf1 : (if wb.content.length + s.length > wb.content_capacity
             then flushBlock codec zf else zf) = zf1)
    (hwb1 : zf1.write_block = some wb1)
    (hbig : ¬s.length ≤ wb1.content_capacity) :
    ZlineFile_add_line2 codec zf s s.length = (0, flushBlock codec { zf1 with
      write_block := some ({ wb1 with
        lines := wb1.lines ++ [⟨wb1.content.length, s.length⟩],
        first_line := if wb1.lines = [] then zf1.line_count else wb1.first_line,
        content := s.take s.length }),
      block_starts := if wb1.lines = [] ∧ wb1.idx > 0
        then zf1.block_starts.set (wb1.idx.toNat - 1) zf1.line_count
        else zf1.block_starts,
      line_count := zf1.line_count + 1,
      max_line_len := max s.length zf1.max_line_len }) := by
  rw [ZlineFile_add_line2]
  rw [if_neg (by simp [hmode]), hwb]
  simp only [hzf1]
  rw [addLineInternal_eq zf1 wb1 s.length hwb1]
  simp [hbig]

/-- ZlineFile_add_line2 preserves the build invariant. -/
theorem add_line2_CreateInv (codec : Codec) (cap : Nat) (zf : ZlineFile)
    (S : List Bytes) (s : Bytes) (h : CreateInv codec cap zf S) :
    CreateInv codec cap ((ZlineFile_add_line2 codec zf s s.length).2) (S ++ [s]) := by
  obtain ⟨css, ws, wb, hc, htail, hbound⟩ := h
  have hcontent : wb.content.length = ws.flatten.length := by rw [hc.wbContent]
  by_cases hbig : s.length ≤ cap
  · by_cases hflush : ws.flatten.length + s.length > cap
    · -- flush, then the line fits the fresh block
      have hwsne : ws.flatten ≠ [] := by
        intro e
        rw [e] at hflush
        simp at hflush
        omega
      obtain ⟨wb1, hc1⟩ := flushBlock_preserves codec cap zf S css ws wb hc hwsne
      have heq := add_line2_eq_small codec zf s wb (flushBlock codec zf) wb1
        hc.mode hc.wbeq (if_pos (by rw [hcontent, hc.capEq]; omega))
        hc1.wbeq (by rw [hc1.capEq]; omega)
      rw [heq]
      have hstate := addLine_state_CoreInv codec cap (flushBlock codec zf) S
        (css ++ [ws]) [] wb1 s hc1 (Or.inl (by simpa using hbig))
      refine ⟨css ++ [ws], [] ++ [s], _, hstate, ?_, ?_⟩
      · intro hfl
        exfalso
        have hsnil : s = [] := by simpa using hfl
        rw [hsnil] at hflush
        simp only [List.length_nil, Nat.add_zero] at hflush
        omega
      · simpa using hbig
    · -- the line joins the current block, no flush
      have heq := add_line2_eq_small codec zf s wb zf wb hc.mode hc.wbeq
        (if_neg (by rw [hcontent, hc.capEq]; omega)) hc.wbeq
        (by rw [hc.capEq]; omega)
      rw [heq]
      have hlenapp : (ws ++ [s]).flatten.length = ws.flatten.length + s.length := by
        simp
      have hstate := addLine_state_CoreInv codec cap zf S css ws wb s hc
        (Or.inl (by rw [hlenapp]; omega))
      refine ⟨css, ws ++ [s], _, hstate, ?_, ?_⟩
      · intro hfl
        have hfl' : ws.flatten = [] ∧ s = [] := by
          rw [List.flatten_append] at hfl
          simpa using hfl
        obtain ⟨hfw, hfs⟩ := hfl'
        rcases htail hfw with hall | ⟨i0, hi0, hl0⟩
        · left
          intro t ht
          rcases List.mem_append.mp ht with h1 | h1
          · exact hall t h1
          · simp at h1
            rw [h1, hfs]
        · right
          refine ⟨i0, ?_, ?_⟩
          · rw [hfs, lastNonemptyIdx?_concat_empty]
            exact hi0
          · have hi0lt := (lastNonemptyIdx?_spec S i0 hi0).1
            rw [getD_append_left _ _ _ _ hi0lt]
            exact hl0
      · rw [hlenapp]
        omega
  · -- oversize line: flushed straight to disk as its own block
    have hbig' : s.length > cap := by omega
    have hsne : s ≠ [] := by
      intro e
      rw [e] at hbig'
      simp at hbig'
    have hcond : wb.content.length + s.length > wb.content_capacity := by
      rw [hc.capEq]
      omega
    by_cases hfl : ws.flatten = []
    · -- nothing buffered: the first flush is a no-op
      have hcnil : wb.content = [] := by rw [hc.wbContent, hfl]
      have hnoop : flushBlock codec zf = zf := flushBlock_noop codec zf wb hc.wbeq hcnil
      have heq := add_line2_eq_big codec zf s wb zf wb hc.mode hc.wbeq
        (by rw [if_pos hcond, hnoop]) hc.wbeq (by rw [hc.capEq]; omega)
      rw [heq]
      have hstate := addLine_state_CoreInv codec cap zf S css ws wb s hc
        (Or.inr ⟨s, by simp, by rw [List.flatten_append, hfl]; simp⟩)
      have hne2 : (ws ++ [s]).flatten ≠ [] := by
        rw [List.flatten_append, hfl]
        simpa using hsne
      obtain ⟨wb2, hc2⟩ := flushBlock_preserves codec cap _ (S ++ [s]) css (ws ++ [s]) _
        hstate hne2
      have hEeq : ({ zf with
          write_block := some ({ wb with
            lines := wb.lines ++ [⟨wb.content.length, s.length⟩],
            first_line := if wb.lines = [] then zf.line_count else wb.first_line,
            content := wb.content ++ s.take s.length }),
          block_starts := if wb.lines = [] ∧ wb.idx > 0
            then zf.block_starts.set (wb.idx.toNat - 1) zf.line_count
            else zf.block_starts,
          line_count := zf.line_count + 1,
          max_line_len := max s.length zf.max_line_len } : ZlineFile)
          = { zf with
          write_block := some ({ wb with
            lines := wb.lines ++ [⟨wb.content.length, s.length⟩],
            first_line := if wb.lines = [] then zf.line_count else wb.first_line,
            content := s.take s.length }),
          block_starts := if wb.lines = [] ∧ wb.idx > 0
            then zf.block_starts.set (wb.idx.toNat - 1) zf.line_count
            else zf.block_starts,
          line_count := zf.line_count + 1,
          max_line_len := max s.length zf.max_line_len } := by
        rw [hcnil]
        simp only [List.nil_append]
      rw [hEeq] at hc2
      refine ⟨css ++ [ws ++ [s]], [], _, hc2, ?_, by simp⟩
      intro _
      right
      refine ⟨S.length, lastNonemptyIdx?_concat_nonempty S s hsne, ?_⟩
      rw [getD_concat_self]
      exact hbig'
    · -- buffered lines are flushed first, then the oversize line alone
      obtain ⟨wb1, hc1⟩ := flushBlock_preserves codec cap zf S css ws wb hc hfl
      have hcnil1 : wb1.content = [] := hc1.wbContent
      have heq := add_line2_eq_big codec zf s wb (flushBlock codec zf) wb1
        hc.mode hc.wbeq (if_pos hcond) hc1.wbeq (by rw [hc1.capEq]; omega)
      rw [heq]
      have hstate := addLine_state_CoreInv codec cap (flushBlock codec zf) S
        (css ++ [ws]) [] wb1 s hc1 (Or.inr ⟨s, by simp, by simp⟩)
      have hne2 : (([] : List Bytes) ++ [s]).flatten ≠ [] := by simp [hsne]
      obtain ⟨wb2, hc2⟩ := flushBlock_preserves codec cap _ (S ++ [s]) (css ++ [ws])
        ([] ++ [s]) _ hstate hne2
      have hEeq : ({ flushBlock codec zf with
          write_block := some ({ wb1 with
            lines := wb1.lines ++ [⟨wb1.content.length, s.length⟩],
            first_line := if wb1.lines = [] then (flushBlock codec zf).line_count
                          else wb1.first_line,
            content := wb1.content ++ s.take s.length }),
          block_starts := if wb1.lines = [] ∧ wb1.idx > 0
            then (flushBlock codec zf).block_starts.set (wb1.idx.toNat - 1)
              (flushBlock codec zf).line_count
            else (flushBlock codec zf).block_starts,
          line_count := (flushBlock codec zf).line_count + 1,
          max_line_len := max s.length (flushBlock codec zf).max_line_len } : ZlineFile)
          = { flushBlock codec zf with
          write_block := some ({ wb1 with
            lines := wb1.lines ++ [⟨wb1.content.length, s.length⟩],
            first_line := if wb1.lines = [] then (flushBlock codec zf).line_count
                          else wb1.first_line,
            content := s.take s.length }),
          block_starts := if wb1.lines = [] ∧ wb1.idx > 0
            then (flushBlock codec zf).block_starts.set (wb1.idx.toNat - 1)
              (flushBlock codec zf).line_count
            else (flushBlock codec zf).block_starts,
          line_count := (flushBlock codec zf).line_count + 1,
          max_line_len := max s.length (flushBlock codec zf).max_line_len } := by
        rw [hcnil1]
        simp only [List.nil_append]
      rw [hEeq] at hc2
      refine ⟨css ++ [ws] ++ [[] ++ [s]], [], _, hc2, ?_, by simp⟩
      intro _
      right
      refine ⟨S.length, lastNonemptyIdx?_concat_nonempty S s hsne, ?_⟩
      rw [getD_concat_self]
      exact hbig'

/-- Folding the add-line step over any list of lines preserves the
build invariant. -/
theorem foldl_addLine_CreateInv (codec : Codec) (cap : Nat) (S : List Bytes) :
    ∀ (zf : ZlineFile) (T : List Bytes), CreateInv codec cap zf T →
    CreateInv codec cap
      (S.foldl (fun zf s => (ZlineFile_add_line2 codec zf s s.length).2) zf)
      (T ++ S) := by
  induction S with
  | nil =>
    intro zf T h
    simpa using h
  | cons s rest ih =>
    intro zf T h
    have h1 := add_line2_CreateInv codec cap zf T s h
    have h2 := ih ((ZlineFile_add_line2 codec zf s s.length).2) (T ++ [s]) h1
    simpa using h2

/-- buildFile establishes the build invariant for the whole sequence. -/
theorem buildFile_CreateInv (codec : Codec) (block_size : Nat) (S : List Bytes)
    (zf : ZlineFile) (h : buildFile codec block_size S = some zf) :
    CreateInv codec (capOf block_size) zf S := by
  unfold buildFile at h
  cases hcr : ZlineFile_create2 block_size with
  | none => rw [hcr] at h; simp at h
  | some zf0 =>
    rw [hcr] at h
    simp only [Option.map_some', Option.some.injEq] at h
    obtain ⟨wb, hc⟩ := create_CoreInv codec block_size zf0 hcr
    have hinv : CreateInv codec (capOf block_size) zf0 [] :=
      ⟨[], [], wb, hc, fun _ => Or.inl (by simp), by simp⟩
    have hfold := foldl_addLine_CreateInv codec (capOf block_size) S zf0 [] hinv
    rw [h] at hfold
    rw [List.nil_append] at hfold
    exact hfold

/-! ## The read-side invariant -/

theorem getD_take {α : Type} (l : List α) (n i : Nat) (d : α) (h : i < n) :
    (l.take n).getD i d = l.getD i d := by
  induction l generalizing n i with
  | nil => simp
  | cons a as ih =>
    cases n with
    | zero => omega
    | succ m =>
      cases i with
      | zero => simp [List.getD]
      | succ j => simpa [List.getD] using ih m j (by omega)

theorem lineAt_zero (css : List (List Bytes)) : lineAt css 0 = 0 := by
  simp [lineAt]

theorem lineAt_cons_succ (c : List Bytes) (cs : List (List Bytes)) (b : Nat) :
    lineAt (c :: cs) (b + 1) = c.length + lineAt cs b := by
  simp [lineAt]

/-- Reading line j of the flattened sequence inside chunk b reads line
j - lineAt css b of chunk b. -/
theorem flatten_getD (css : List (List Bytes)) (b j : Nat) (hb : b < css.length)
    (hge : lineAt css b ≤ j) (hlt : j < lineAt css (b + 1)) :
    css.flatten.getD j [] = (css.getD b []).getD (j - lineAt css b) [] := by
  induction css generalizing b j with
  | nil => simp at hb
  | cons c cs ih =>
    cases b with
    | zero =>
      have hj : j < c.length := by
        have h1 := hlt
        rw [lineAt_cons_succ, lineAt_zero, Nat.add_zero] at h1
        exact h1
      rw [List.flatten_cons, getD_append_left _ _ _ _ hj, lineAt_zero]
      simp
    | succ b =>
      have h1 : lineAt (c :: cs) (b + 1) = c.length + lineAt cs b := lineAt_cons_succ c cs b
      have h2 := lineAt_cons_succ c cs (b + 1)
      have hcle : c.length ≤ j := by
        have hmono : lineAt cs b ≥ 0 := Nat.zero_le _
        omega
      rw [List.flatten_cons, List.getD_append_right _ _ _ _ hcle]
      have hb' : b < cs.length := by simpa using hb
      have := ih b (j - c.length) hb' (by omega) (by omega)
      rw [this, h1]
      have harg : j - c.length - lineAt cs b = j - (c.length + lineAt cs b) := by omega
      rw [harg]
      rfl

theorem mem_getD_flatten (css : List (List Bytes)) (b : Nat) (hb : b < css.length)
    (s : Bytes) (hs : s ∈ css.getD b []) : s ∈ css.flatten := by
  have hg : css.getD b [] = css[b] := by
    rw [List.getD_eq_getElem?_getD, List.getElem?_eq_getElem hb]
    rfl
  rw [hg] at hs
  exact List.mem_flatten.mpr ⟨css[b], List.getElem_mem hb, hs⟩

/-- find? returns the first element satisfying the predicate. -/
theorem find?_first {α : Type} (l : List α) (p : α → Bool) (i : Nat) (hi : i < l.length)
    (hbefore : ∀ j (hj : j < l.length), j < i → p (l.get ⟨j, hj⟩) = false)
    (hp : p (l.get ⟨i, hi⟩) = true) : l.find? p = some (l.get ⟨i, hi⟩) := by
  induction l generalizing i with
  | nil => simp at hi
  | cons a as ih =>
    cases i with
    | zero =>
      have hp' : p a = true := hp
      rw [List.find?_cons_of_pos _ hp']
      rfl
    | succ i =>
      have ha : p a = false := hbefore 0 (by simp) (by omega)
      rw [List.find?_cons_of_neg _ (by simp [ha])]
      exact ih i (by simpa using hi)
        (fun j hj hji => hbefore (j + 1) (by simpa using hj) (by omega)) hp

theorem offAt_strict_mono (body : List DiskBlock)
    (hpos : ∀ k, k < body.length → 1 ≤ diskBlockSize (body.getD k default)) :
    ∀ i j, i < j → j ≤ body.length → offAt body i < offAt body j := by
  intro i j
  induction j with
  | zero => intro hij _; omega
  | succ m ih =>
    intro hij hj
    have hm : m < body.length := by omega
    rw [offAt_succ body m hm]
    rcases Nat.lt_succ_iff_lt_or_eq.mp hij with h | h
    · have h1 := ih h (by omega)
      have h2 := hpos m hm
      omega
    · have h2 := hpos m hm
      have h3 : offAt body i = offAt body m := by rw [h]
      omega

/-- ReadInv: what a freshly re-opened file satisfies: css is the
per-block chunking of the stored lines, with the block index and
block_starts arrays agreeing with it exactly. -/
structure ReadInv (codec : Codec) (cap : Nat) (zfr : ZlineFile)
    (css : List (List Bytes)) : Prop where
  mode : zfr.mode = ZLINE_MODE_READ
  wb : zfr.write_block = none
  lineCount : zfr.line_count = css.flatten.length
  maxLen : zfr.max_line_len = maxLenAcc css.flatten
  bodyLen : zfr.body.length = css.length
  blocksLen : zfr.blocks.length = css.length
  startsLen : zfr.block_starts.length = css.length - 1
  cssNe : css ≠ []
  capPos : 1 ≤ cap
  capLe : cap ≤ C_INT_MAX
  per : ∀ i, i < css.length →
    PerBlock codec cap (zfr.body.getD i default) (zfr.blocks.getD i default)
      (css.getD i []) (offAt zfr.body i) (lineAt css i)
  starts : ∀ i, i < css.length - 1 → zfr.block_starts.getD i 0 = lineAt css (i + 1)

/-- Closing a fully-flushed building file and re-opening it succeeds
and establishes the read invariant with a fresh cache block. -/
theorem close_read_flushed (codec : Codec) (cap : Nat) (zf1 : ZlineFile) (S : List Bytes)
    (css1 : List (List Bytes)) (wb1 : ZlineBlock)
    (hc1 : CoreInv codec cap zf1 S css1 [] wb1) (hcssne : css1 ≠ []) :
    ∃ zfr, ZlineFile_read codec (ZlineFile_close codec zf1) = some zfr ∧
      ReadInv codec cap zfr css1 ∧
      (∃ rb, zfr.read_block = some rb ∧ rb.idx = -1 ∧ rb.lines = [] ∧ rb.content = []) := by
  have hwbc : wb1.content = [] := by simpa using hc1.wbContent
  have hSeq : css1.flatten = S := by
    have h := hc1.split
    simp at h
    exact h.symm
  have hcssLen : css1.length = zf1.body.length := hc1.cssLen
  have hblocksLen : zf1.blocks.length = zf1.body.length + 1 := hc1.blocksLen
  have hstartsLen : zf1.block_starts.length = zf1.body.length := hc1.startsLen
  have hn1 : zf1.blocks.length - 1 = css1.length := by omega
  -- the first chunk is a nonempty list of lines, so the file has lines
  have hlen1 : 1 ≤ css1.length := by
    cases css1 with
    | nil => exact absurd rfl hcssne
    | cons c cs => simp
  have hchunk0 := hc1.per 0 (by omega)
  have hc0ne : css1.getD 0 [] ≠ [] := hchunk0.ssNe
  have hSne : S ≠ [] := by
    rw [← hSeq]
    cases hcs : css1 with
    | nil => exact absurd hcs hcssne
    | cons c cs =>
      have hcne : c ≠ [] := by
        have h0 := hc0ne
        rw [hcs] at h0
        simpa [List.getD] using h0
      intro hflat
      rw [List.flatten_cons] at hflat
      exact hcne (List.append_eq_nil.mp hflat).1
  have hSlen : 1 ≤ S.length := by
    cases S with
    | nil => exact absurd rfl hSne
    | cons a as => simp
  have hcl : ZlineFile_close codec zf1 = {
      header := { data_offset := zf1.data_offset,
                  index_offset := wb1.offset + (8 - wb1.offset % 8) % 8,
                  lines := zf1.line_count, blocks := zf1.blocks.length - 1,
                  maxlen := zf1.max_line_len, zi := zf1.is_index_compressed },
      body := zf1.body,
      blocks := zf1.blocks.take (zf1.blocks.length - 1),
      block_starts := zf1.block_starts.take (zf1.blocks.length - 1 - 1) } := by
    unfold ZlineFile_close
    simp [hc1.wbeq, hwbc]
  rw [hcl]
  unfold ZlineFile_read
  have hhead : readHeader
      { data_offset := zf1.data_offset,
        index_offset := wb1.offset + (8 - wb1.offset % 8) % 8,
        lines := zf1.line_count, blocks := zf1.blocks.length - 1,
        maxlen := zf1.max_line_len, zi := zf1.is_index_compressed } = true := by
    unfold readHeader
    have h1 : zf1.data_offset = HEADER_SIZE := hc1.dataOff
    have h2 : wb1.offset = offAt zf1.body zf1.body.length := hc1.wbOff
    have h3 : HEADER_SIZE ≤ offAt zf1.body zf1.body.length := by
      unfold offAt
      omega
    have h4 : zf1.line_count = S.length := hc1.lineCount
    simp only [decide_eq_true_eq]
    unfold HEADER_SIZE at h1 h3
    omega
  rw [if_neg (by simp [hhead])]
  have hlb : (zf1.blocks.take (zf1.blocks.length - 1)).length = zf1.blocks.length - 1 := by
    simp
  have hls : (zf1.block_starts.take (zf1.blocks.length - 1 - 1)).length
      = zf1.blocks.length - 1 - 1 := by
    simp
    omega
  rw [if_neg (by
    simp only [hlb, hls]
    push_neg
    exact ⟨rfl, rfl⟩)]
  refine ⟨_, rfl, ?_, ?_⟩
  · refine
      { mode := rfl, wb := rfl,
        lineCount := ?_, maxLen := ?_, bodyLen := ?_, blocksLen := ?_,
        startsLen := ?_, cssNe := hcssne, capPos := hc1.capPos, capLe := hc1.capLe,
        per := ?_, starts := ?_ }
    · show zf1.line_count = css1.flatten.length
      rw [hc1.lineCount, hSeq]
    · show zf1.max_line_len = maxLenAcc css1.flatten
      rw [hc1.maxLen, hSeq]
    · exact hcssLen.symm
    · simpa using hn1
    · simp only [List.length_take]
      omega
    · intro i hi
      have hi' : i < zf1.body.length := by omega
      have hper := hc1.per i hi'
      have hg : (zf1.blocks.take (zf1.blocks.length - 1)).getD i default
          = zf1.blocks.getD i default := getD_take _ _ _ _ (by omega)
      rw [hg]
      exact hper
    · intro i hi
      have hi' : i < zf1.body.length := by omega
      have hst := hc1.starts i hi'
      have hg : (zf1.block_starts.take (zf1.blocks.length - 1 - 1)).getD i 0
          = zf1.block_starts.getD i 0 := getD_take _ _ _ _ (by omega)
      rw [hg]
      exact hst
  · exact ⟨_, rfl, rfl, rfl, rfl⟩

theorem getD_mem {α : Type} (l : List α) (i : Nat) (d : α) (h : i < l.length) :
    l.getD i d ∈ l := by
  rw [List.getD_eq_getElem?_getD, List.getElem?_eq_getElem h]
  exact List.getElem_mem h

/-- Under the build invariant, when the last nonempty line either fits
a block or is the final line, the write buffer at close time is either
nonempty (and flushes) or holds no lines at all: no line is dropped. -/
theorem tail_good (cap : Nat) (S : List Bytes) (css : List (List Bytes))
    (ws : List Bytes) (hsplit : S = css.flatten ++ ws)
    (htail : TailOk cap S ws)
    (i0 : Nat) (hl : lastNonemptyIdx? S = some i0)
    (hok : (S.getD i0 []).length ≤ cap ∨ i0 = S.length - 1) :
    ws.flatten ≠ [] ∨ ws = [] := by
  by_cases hfl : ws.flatten = []
  · right
    by_contra hwsne
    have hspec := lastNonemptyIdx?_spec S i0 hl
    rcases htail hfl with hall | ⟨i1, hi1, hbig⟩
    · exact hspec.2 (hall _ (getD_mem S i0 [] hspec.1))
    · rw [hl] at hi1
      injection hi1 with hi1
      subst hi1
      have hcap : ¬(S.getD i0 []).length ≤ cap := by omega
      have hlast : i0 = S.length - 1 := by tauto
      have hwslen : 1 ≤ ws.length := by
        cases ws with
        | nil => exact absurd rfl hwsne
        | cons a as => simp
      have hSlen : S.length = css.flatten.length + ws.length := by
        rw [hsplit]
        simp
      have hge : css.flatten.length ≤ i0 := by omega
      have hgd : S.getD i0 [] = ws.getD (i0 - css.flatten.length) [] := by
        rw [hsplit]
        exact List.getD_append_right _ _ _ _ hge
      have hmem : ws.getD (i0 - css.flatten.length) [] ∈ ws :=
        getD_mem ws _ [] (by omega)
      have hempty : ws.getD (i0 - css.flatten.length) [] = [] := by
        have hallws : ∀ t ∈ ws, t = [] := by
          rw [List.flatten_eq_nil_iff] at hfl
          exact hfl
        exact hallws _ hmem
      rw [hgd, hempty] at hspec
      exact hspec.2 rfl
  · left
    exact hfl

/-- Closing any building file whose buffered tail is clean and
re-opening it establishes the read invariant. -/
theorem close_read_spec (codec : Codec) (cap : Nat) (zf : ZlineFile) (S : List Bytes)
    (css : List (List Bytes)) (ws : List Bytes) (wb : ZlineBlock)
    (hc : CoreInv codec cap zf S css ws wb)
    (hgood : ws.flatten ≠ [] ∨ ws = []) (hSne : S ≠ []) :
    ∃ zfr css1, css1.flatten = S ∧
      ZlineFile_read codec (ZlineFile_close codec zf) = some zfr ∧
      ReadInv codec cap zfr css1 ∧
      (∃ rb, zfr.read_block = some rb ∧ rb.idx = -1 ∧ rb.lines = [] ∧ rb.content = []) := by
  rcases hgood with hne | hnil
  · obtain ⟨wb1, hc1⟩ := flushBlock_preserves codec cap zf S css ws wb hc hne
    have h1 : wb.content ≠ [] := by rw [hc.wbContent]; exact hne
    have h2 : wb1.content = [] := by simpa using hc1.wbContent
    have hstep : ZlineFile_close codec zf = ZlineFile_close codec (flushBlock codec zf) := by
      unfold ZlineFile_close
      simp [hc.wbeq, hc1.wbeq, h1, h2]
    obtain ⟨zfr, hread, hrinv, hcache⟩ :=
      close_read_flushed codec cap (flushBlock codec zf) S (css ++ [ws]) wb1 hc1 (by simp)
    refine ⟨zfr, css ++ [ws], ?_, ?_, hrinv, hcache⟩
    · have h := hc1.split
      simp at h
      simpa using h.symm
    · rw [hstep]
      exact hread
  · subst hnil
    have hcssne : css ≠ [] := by
      intro hcs
      have h := hc.split
      rw [hcs] at h
      simp at h
      exact hSne h
    obtain ⟨zfr, hread, hrinv, hcache⟩ :=
      close_read_flushed codec cap zf S css wb hc hcssne
    refine ⟨zfr, css, ?_, hread, hrinv, hcache⟩
    have h := hc.split
    simp at h
    exact h.symm

/-- The full pipeline: build from a sequence whose last nonempty line
fits a block or ends the sequence, close, re-open: the read invariant
holds of the re-opened file for some chunking of the lines. -/
theorem roundTrip_ReadInv (codec : Codec) (block_size : Nat) (S : List Bytes)
    (hbs : block_size ≤ C_INT_MAX)
    (i0 : Nat) (hl : lastNonemptyIdx? S = some i0)
    (hok : (S.getD i0 []).length ≤ capOf block_size ∨ i0 = S.length - 1) :
    ∃ zfr css1, css1.flatten = S ∧
      roundTrip codec block_size S = some zfr ∧
      ReadInv codec (capOf block_size) zfr css1 ∧
      (∃ rb, zfr.read_block = some rb ∧ rb.idx = -1 ∧ rb.lines = [] ∧ rb.content = []) := by
  have hSne : S ≠ [] := by
    have hspec := lastNonemptyIdx?_spec S i0 hl
    intro he
    rw [he] at hspec
    simp at hspec
  have hcr : ∃ zf0, ZlineFile_create2 block_size = some zf0 := by
    unfold ZlineFile_create2
    rw [if_neg (by omega)]
    exact ⟨_, rfl⟩
  obtain ⟨zf0, hcr⟩ := hcr
  have hbuild : buildFile codec block_size S
      = some (S.foldl (fun zf s => (ZlineFile_add_line2 codec zf s s.length).2) zf0) := by
    unfold buildFile
    rw [hcr]
    rfl
  set zfB := S.foldl (fun zf s => (ZlineFile_add_line2 codec zf s s.length).2) zf0 with hzfB
  have hinv : CreateInv codec (capOf block_size) zfB S :=
    buildFile_CreateInv codec block_size S zfB hbuild
  obtain ⟨css, ws, wb, hc, htail, hbound⟩ := hinv
  have hgood : ws.flatten ≠ [] ∨ ws = [] :=
    tail_good (capOf block_size) S css ws hc.split htail i0 hl hok
  obtain ⟨zfr, css1, hflat, hread, hrinv, hcache⟩ :=
    close_read_spec codec (capOf block_size) zfB S css ws wb hc hgood hSne
  refine ⟨zfr, css1, hflat, ?_, hrinv, hcache⟩
  unfold roundTrip
  rw [hbuild]
  exact hread

theorem getD_eq_get {α : Type} (l : List α) (i : Nat) (d : α) (h : i < l.length) :
    l.getD i d = l.get ⟨i, h⟩ := by
  rw [List.getD_eq_getElem?_getD, List.getElem?_eq_getElem h]
  rfl

/-- On a re-opened file the per-block line count computed from
block_starts is the chunk length. -/
theorem block_line_count_eq (codec : Codec) (cap : Nat) (zfr : ZlineFile)
    (css : List (List Bytes)) (hr : ReadInv codec cap zfr css) (b : Nat)
    (hb : b < css.length) :
    ZlineFile_get_block_line_count zfr b = (css.getD b []).length := by
  unfold ZlineFile_get_block_line_count
  rw [if_neg (by rw [hr.blocksLen]; omega)]
  have hstart : (if b = 0 then 0 else zfr.block_starts.getD (b - 1) 0) = lineAt css b := by
    by_cases h0 : b = 0
    · subst h0
      simp [lineAt_zero]
    · rw [if_neg h0, hr.starts (b - 1) (by omega)]
      congr 1
      omega
  have hend : (if b = zfr.blocks.length - 1 then zfr.line_count
      else zfr.block_starts.getD b 0) = lineAt css (b + 1) := by
    by_cases hlast : b = zfr.blocks.length - 1
    · rw [if_pos hlast, hr.lineCount]
      have hbe : b + 1 = css.length := by
        rw [hr.blocksLen] at hlast
        omega
      rw [hbe, lineAt_length]
    · rw [if_neg hlast]
      have hblt : b < css.length - 1 := by
        rw [hr.blocksLen] at hlast
        omega
      exact hr.starts b hblt
  simp only [hstart, hend]
  rw [lineAt_succ css b hb]
  omega

theorem getLineBlockLoop_spec (css : List (List Bytes)) (starts : List Nat)
    (line_idx : Nat)
    (hstarts : ∀ j, j < css.length - 1 → starts.getD j 0 = lineAt css (j + 1))
    (hpos : ∀ j, j < css.length → 1 ≤ (css.getD j []).length) :
    ∀ rem i, i + rem + 1 = css.length → lineAt css i ≤ line_idx →
      line_idx < lineAt css css.length →
      getLineBlockLoop starts line_idx i rem < css.length ∧
      lineAt css (getLineBlockLoop starts line_idx i rem) ≤ line_idx ∧
      line_idx < lineAt css (getLineBlockLoop starts line_idx i rem + 1) := by
  intro rem
  induction rem with
  | zero =>
    intro i hlen hge hlt
    unfold getLineBlockLoop
    refine ⟨by omega, hge, ?_⟩
    have hie : i + 1 = css.length := by omega
    rw [hie]
    exact hlt
  | succ rem ih =>
    intro i hlen hge hlt
    unfold getLineBlockLoop
    have hi : i < css.length - 1 := by omega
    have hst := hstarts i hi
    by_cases hcmp : line_idx ≤ starts.getD i 0 - 1
    · rw [if_pos hcmp]
      have hposl : 1 ≤ lineAt css (i + 1) := by
        rw [lineAt_succ css i (by omega)]
        have := hpos i (by omega)
        omega
      refine ⟨by omega, hge, ?_⟩
      rw [hst] at hcmp
      omega
    · rw [if_neg hcmp]
      rw [hst] at hcmp
      have hge' : lineAt css (i + 1) ≤ line_idx := by
        rw [lineAt_succ css i (by omega)] at hcmp ⊢
        have := hpos i (by omega)
        omega
      exact ih (i + 1) (by omega) hge' hlt

/-- getLineBlock finds the block whose chunk holds the line. -/
theorem getLineBlock_spec (codec : Codec) (cap : Nat) (zfr : ZlineFile)
    (css : List (List Bytes)) (hr : ReadInv codec cap zfr css)
    (i : Nat) (hi : i < css.flatten.length) :
    getLineBlock zfr i < css.length ∧
    lineAt css (getLineBlock zfr i) ≤ i ∧
    i < lineAt css (getLineBlock zfr i + 1) := by
  have hlt : i < lineAt css css.length := by
    rw [lineAt_length]
    exact hi
  have hpos : ∀ j, j < css.length → 1 ≤ (css.getD j []).length := by
    intro j hj
    have := (hr.per j hj).ssNe
    cases hcs : css.getD j [] with
    | nil => exact absurd hcs this
    | cons a as => simp
  have hlen1 : 1 ≤ css.length := by
    cases hcs : css with
    | nil => exact absurd hcs hr.cssNe
    | cons c cs => simp
  unfold getLineBlock
  by_cases h1 : zfr.blocks.length ≤ 1
  · rw [if_pos h1]
    have hone : css.length = 1 := by
      rw [hr.blocksLen] at h1
      omega
    refine ⟨by omega, by rw [lineAt_zero]; omega, ?_⟩
    have h01 : (0 : Nat) + 1 = css.length := by omega
    rw [h01]
    exact hlt
  · rw [if_neg h1]
    rw [hr.blocksLen] at h1
    have := getLineBlockLoop_spec css zfr.block_starts i hr.starts hpos
      (css.length - 1) 0 (by omega) (by rw [lineAt_zero]; omega) hlt
    rw [hr.blocksLen]
    exact this

theorem flag_raw (entry : ZlineIndexBlock) (clen : Nat)
    (hx : entry.compressed_length_x = clen) (hlt : clen < 2 ^ 63) :
    isBlockLineIndexCompressed entry = false ∧ getBlockCompressedLen entry = clen := by
  unfold isBlockLineIndexCompressed getBlockCompressedLen
  rw [hx]
  constructor
  · rw [Nat.div_eq_of_lt hlt]
    rfl
  · exact Nat.mod_eq_of_lt hlt

theorem flag_compressed (entry : ZlineIndexBlock) (clen : Nat)
    (hx : entry.compressed_length_x = clen + LINE_INDEX_COMPRESSED_FLAG)
    (hlt : clen < 2 ^ 63) :
    isBlockLineIndexCompressed entry = true ∧ getBlockCompressedLen entry = clen := by
  unfold isBlockLineIndexCompressed getBlockCompressedLen
  rw [hx]
  unfold LINE_INDEX_COMPRESSED_FLAG
  constructor
  · rw [Nat.add_div_right _ (by positivity), Nat.div_eq_of_lt hlt]
    rfl
  · rw [Nat.add_mod_right, Nat.mod_eq_of_lt hlt]

/-- The read cache holds block b faithfully: the directory records are
the on-disk ones and the content is the chunk's bytes — except that a
single-line block longer than MAX_IN_MEMORY_BLOCK stays on disk. -/
def CacheOk (zfr : ZlineFile) (css : List (List Bytes)) (b : Nat) : Prop :=
  ∃ rb, zfr.read_block = some rb ∧ rb.idx = (b : Int) ∧
    rb.offset = offAt zfr.body b ∧ rb.first_line = lineAt css b ∧
    rb.lines = dirLines ((zfr.body.getD b default).dir) ∧
    rb.content = (if (css.getD b []).length = 1 ∧
        MAX_IN_MEMORY_BLOCK < (css.getD b []).flatten.length
      then [] else (css.getD b []).flatten)

theorem body_find?_spec (codec : Codec) (cap : Nat) (zfr : ZlineFile)
    (css : List (List Bytes)) (hr : ReadInv codec cap zfr css) (b : Nat)
    (hb : b < css.length) :
    zfr.body.find? (fun db => db.offset == offAt zfr.body b)
      = some (zfr.body.getD b default) := by
  have hblen : zfr.body.length = css.length := hr.bodyLen
  have hbb : b < zfr.body.length := by omega
  have hsizes : ∀ k, k < zfr.body.length → 1 ≤ diskBlockSize (zfr.body.getD k default) := by
    intro k hk
    have hper := hr.per k (by omega)
    have hne : (zfr.body.getD k default).contentComp ≠ [] := by
      rw [hper.comp]
      exact codec.compress_pos _ hper.flatNe
    unfold diskBlockSize
    have h1 : 1 ≤ (zfr.body.getD k default).contentComp.length := by
      cases hcc : (zfr.body.getD k default).contentComp with
      | nil => exact absurd hcc hne
      | cons x xs => simp
    omega
  have hgd : zfr.body.getD b default = zfr.body.get ⟨b, hbb⟩ := getD_eq_get _ _ _ hbb
  rw [hgd]
  apply find?_first zfr.body _ b hbb
  · intro j hj hjb
    have hoffj : (zfr.body.get ⟨j, hj⟩).offset = offAt zfr.body j := by
      have h := (hr.per j (by omega)).dbOff
      rw [getD_eq_get _ _ _ hj] at h
      exact h
    have hlt := offAt_strict_mono zfr.body hsizes j b hjb (by omega)
    simp only [hoffj]
    simp
    omega
  · have hoffb : (zfr.body.get ⟨b, hbb⟩).offset = offAt zfr.body b := by
      have h := (hr.per b hb).dbOff
      rw [getD_eq_get _ _ _ hbb] at h
      exact h
    simp only [beq_iff_eq]
    exact hoffb

theorem first_line_eq (codec : Codec) (cap : Nat) (zfr : ZlineFile)
    (css : List (List Bytes)) (hr : ReadInv codec cap zfr css) (b : Nat)
    (hb : b < css.length) :
    (if b = 0 then 0 else zfr.block_starts.getD (b - 1) 0) = lineAt css b := by
  by_cases h0 : b = 0
  · subst h0
    simp [lineAt_zero]
  · rw [if_neg h0, hr.starts (b - 1) (by omega)]
    congr 1
    omega

/-- readBlock on a cache miss loads block b: the directory records and
the chunk content (left on disk for an oversize single-line block),
leaving every other field of the file unchanged except the cursor. -/
theorem readBlock_spec (codec : Codec) (cap : Nat) (zfr : ZlineFile)
    (css : List (List Bytes)) (hr : ReadInv codec cap zfr css) (b : Nat)
    (hb : b < css.length)
    (hclen : (zfr.body.getD b default).contentComp.length < 2 ^ 63)
    (hcnt : (css.getD b []).length < 2 ^ 31)
    (hdecl : (css.getD b []).flatten.length < 2 ^ 31)
    (hmiss : (match zfr.read_block with
              | some rb => rb.idx == (b : Int)
              | none => false) = false) :
    ∃ p rb1, readBlock codec zfr b
        = { zfr with fseek_flag := true, filePos := p, read_block := some rb1 } ∧
      CacheOk { zfr with fseek_flag := true, filePos := p, read_block := some rb1 } css b := by
  have hper := hr.per b hb
  have hcount := block_line_count_eq codec cap zfr css hr b hb
  have hfind : zfr.body.find?
      (fun db => db.offset == (zfr.blocks.getD b default).offset)
      = some (zfr.body.getD b default) := by
    rw [hper.entOff]
    exact body_find?_spec codec cap zfr css hr b hb
  have hcompeq : (zfr.body.getD b default).contentComp
      = codec.compress (css.getD b []).flatten := hper.comp
  have hcompne : (zfr.body.getD b default).contentComp ≠ [] := by
    rw [hcompeq]
    exact codec.compress_pos _ hper.flatNe
  have hdirlen : (dirLines (zfr.body.getD b default).dir).length = (css.getD b []).length :=
    dirFits_length _ _ _ hper.dirOk
  have hfirst := first_line_eq codec cap zfr css hr b hb
  have hdeclen : (zfr.blocks.getD b default).decompressed_length
      = (css.getD b []).flatten.length := hper.declen
  unfold readBlock
  simp only [hmiss, Bool.false_eq_true, if_false, hfind, hcount, hfirst]
  rw [if_neg (show ¬2 ^ 31 ≤ (css.getD b []).length by omega)]
  cases hdir : (zfr.body.getD b default).dir with
  | raw ls =>
    have hflag := flag_raw (zfr.blocks.getD b default)
      (zfr.body.getD b default).contentComp.length
      (by rw [hper.clenx, hdir]; simp [dirFlag]) hclen
    have hlslen : ls.length = (css.getD b []).length := by
      rw [hdir] at hdirlen
      simpa [dirLines] using hdirlen
    have htake : ls.take (css.getD b []).length = ls := by
      rw [← hlslen]
      exact List.take_length ls
    simp only [hflag.1, Bool.false_eq_true, if_false, htake, hlslen, ne_eq,
      not_true_eq_false, hdeclen]
    by_cases hbig : (css.getD b []).length = 1 ∧
        MAX_IN_MEMORY_BLOCK < (css.getD b []).flatten.length
    · rw [if_pos hbig]
      refine ⟨_, _, rfl, ?_⟩
      refine ⟨_, rfl, rfl, hper.entOff, rfl, ?_, ?_⟩
      · show ls = dirLines (zfr.body.getD b default).dir
        rw [hdir]
        rfl
      · show ([] : Bytes) = _
        rw [if_pos hbig]
    · rw [if_neg hbig,
        if_neg (show ¬2 ^ 31 ≤ (css.getD b []).flatten.length by omega)]
      have hcontent : decompressFromFile codec
          ((zfr.body.getD b default).contentComp.take
            (getBlockCompressedLen (zfr.blocks.getD b default)))
          (css.getD b []).flatten.length 0 = (css.getD b []).flatten := by
        rw [hflag.2, List.take_length]
        unfold decompressFromFile
        rw [if_neg (by simpa using hcompne), hcompeq, codec.decompress_compress]
        simp
      rw [hcontent]
      rw [if_neg (by simp)]
      refine ⟨_, _, rfl, ?_⟩
      refine ⟨_, rfl, rfl, hper.entOff, rfl, ?_, ?_⟩
      · show ls = dirLines (zfr.body.getD b default).dir
        rw [hdir]
        rfl
      · show (css.getD b []).flatten = _
        rw [if_neg hbig]
  | compressed sl ls =>
    have hflag := flag_compressed (zfr.blocks.getD b default)
      (zfr.body.getD b default).contentComp.length
      (by rw [hper.clenx, hdir]; simp [dirFlag]) hclen
    have hlslen : ls.length = (css.getD b []).length := by
      rw [hdir] at hdirlen
      simpa [dirLines] using hdirlen
    have htake : ls.take (css.getD b []).length = ls := by
      rw [← hlslen]
      exact List.take_length ls
    simp only [hflag.1, if_true, htake, hlslen, ne_eq, not_true_eq_false, hdeclen]
    by_cases hbig : (css.getD b []).length = 1 ∧
        MAX_IN_MEMORY_BLOCK < (css.getD b []).flatten.length
    · rw [if_pos hbig]
      refine ⟨_, _, rfl, ?_⟩
      refine ⟨_, rfl, rfl, hper.entOff, rfl, ?_, ?_⟩
      · show ls = dirLines (zfr.body.getD b default).dir
        rw [hdir]
        rfl
      · show ([] : Bytes) = _
        rw [if_pos hbig]
    · rw [if_neg hbig,
        if_neg (show ¬2 ^ 31 ≤ (css.getD b []).flatten.length by omega)]
      have hcontent : decompressFromFile codec
          ((zfr.body.getD b default).contentComp.take
            (getBlockCompressedLen (zfr.blocks.getD b default)))
          (css.getD b []).flatten.length 0 = (css.getD b []).flatten := by
        rw [hflag.2, List.take_length]
        unfold decompressFromFile
        rw [if_neg (by simpa using hcompne), hcompeq, codec.decompress_compress]
        simp
      rw [hcontent]
      rw [if_neg (not_not_intro
        (rfl : (css.getD b []).flatten.length = (css.getD b []).flatten.length))]
      refine ⟨_, _, rfl, ?_⟩
      refine ⟨_, rfl, rfl, hper.entOff, rfl, ?_, ?_⟩
      · show ls = dirLines (zfr.body.getD b default).dir
        rw [hdir]
        rfl
      · show (css.getD b []).flatten = _
        rw [if_neg hbig]

theorem zil_ext (x : ZlineIndexLine) (o l : Nat) (ho : x.offset = o) (hl : x.length = l) :
    x = ⟨o, l⟩ := by
  cases x with
  | mk a b =>
    simp only [ZlineIndexLine.mk.injEq]
    exact ⟨ho, hl⟩

/-- Slicing a line out of the flattened chunk content: dropping the
preceding lines' bytes plus an in-line offset and taking at most the
rest of the line reads from the line itself. -/
theorem flatten_slice (cs : List Bytes) (k : Nat) (hk : k < cs.length)
    (off cl : Nat) (hcl : cl ≤ (cs.getD k []).length - off)
    (hoff : off ≤ (cs.getD k []).length) :
    (cs.flatten.drop ((cs.take k).flatten.length + off)).take cl
      = ((cs.getD k []).drop off).take cl := by
  induction cs generalizing k with
  | nil => simp at hk
  | cons c rest ih =>
    cases k with
    | zero =>
      simp only [List.take_zero, List.flatten_nil, List.length_nil, Nat.zero_add,
        List.flatten_cons]
      have hgd : (c :: rest).getD 0 [] = c := by simp [List.getD]
      rw [hgd] at hcl hoff ⊢
      rw [List.drop_append_of_le_length hoff]
      have hcl' : cl ≤ (c.drop off).length := by
        rw [List.length_drop]
        omega
      rw [List.take_append_of_le_length hcl']
    | succ k =>
      have hgd : (c :: rest).getD (k + 1) [] = rest.getD k [] := by simp [List.getD]
      rw [hgd] at hcl hoff ⊢
      have htk : ((c :: rest).take (k + 1)).flatten.length
          = c.length + (rest.take k).flatten.length := by
        simp [List.take_succ_cons]
      rw [htk, List.flatten_cons]
      have harr : c.length + (rest.take k).flatten.length + off
          = c.length + ((rest.take k).flatten.length + off) := by omega
      rw [harr, List.drop_append]
      exact ih k (by simpa using hk) hcl hoff

/-- lineInBlock on a cache block holding block b finds the line's
directory record. -/
theorem lineInBlock_cache (codec : Codec) (cap : Nat) (zfA : ZlineFile)
    (css : List (List Bytes)) (b : Nat) (hb : b < css.length)
    (hper : PerBlock codec cap (zfA.body.getD b default) (zfA.blocks.getD b default)
      (css.getD b []) (offAt zfA.body b) (lineAt css b))
    (rb : ZlineBlock) (hrb : rb.first_line = lineAt css b)
    (hlines : rb.lines = dirLines ((zfA.body.getD b default).dir))
    (i : Nat) (hge : lineAt css b ≤ i) (hlt : i < lineAt css (b + 1)) :
    lineInBlock (some rb) i
      = some ⟨((css.getD b []).take (i - lineAt css b)).flatten.length,
              ((css.getD b []).getD (i - lineAt css b) []).length⟩ := by
  have hlen : rb.lines.length = (css.getD b []).length := by
    rw [hlines]
    exact dirFits_length _ _ _ hper.dirOk
  have hchunklen : lineAt css (b + 1) = lineAt css b + (css.getD b []).length :=
    lineAt_succ css b hb
  have hlenpos : 0 < (css.getD b []).length := by
    cases hcs : css.getD b [] with
    | nil => exact absurd hcs hper.ssNe
    | cons a as => simp
  have hcond : rb.lines.length > 0 ∧ rb.first_line ≤ i ∧
      i < rb.first_line + rb.lines.length := by
    refine ⟨by omega, by rw [hrb]; exact hge, by rw [hrb, hlen]; omega⟩
  have hdef : lineInBlock (some rb) i
      = if rb.lines.length > 0 ∧ rb.first_line ≤ i ∧ i < rb.first_line + rb.lines.length
        then some (rb.lines.getD (i - rb.first_line) default) else none := rfl
  rw [hdef, if_pos hcond, hrb, hlines]
  have hidx : i - lineAt css b < (css.getD b []).length := by omega
  obtain ⟨ho, hl⟩ := dirFits_getD 0 _ _ hper.dirOk (i - lineAt css b) hidx
  rw [Nat.zero_add] at ho
  congr 1
  exact zil_ext _ _ _ ho hl

/-- ReadInv only constrains the index arrays and counters, so it
survives cursor and cache updates. -/
theorem ReadInv_update (codec : Codec) (cap : Nat) (zfA : ZlineFile)
    (css : List (List Bytes)) (hr : ReadInv codec cap zfA css)
    (fs : Bool) (p : Nat) (rbOpt : Option ZlineBlock) :
    ReadInv codec cap
      { zfA with fseek_flag := fs, filePos := p, read_block := rbOpt } css :=
  { mode := hr.mode, wb := hr.wb, lineCount := hr.lineCount, maxLen := hr.maxLen,
    bodyLen := hr.bodyLen, blocksLen := hr.blocksLen, startsLen := hr.startsLen,
    cssNe := hr.cssNe, capPos := hr.capPos, capLe := hr.capLe,
    per := hr.per, starts := hr.starts }

/-- loadLine on a fresh cache: finds nothing in memory, loads line i's
block into the cache and reports the line's directory record. -/
theorem loadLine_fresh (codec : Codec) (cap : Nat) (zfr : ZlineFile)
    (css : List (List Bytes)) (hr : ReadInv codec cap zfr css)
    (rb : ZlineBlock) (hrb : zfr.read_block = some rb) (hidx : rb.idx = -1)
    (hlines : rb.lines = [])
    (i : Nat) (hi : i < css.flatten.length)
    (hclen : ∀ b, b < css.length → (zfr.body.getD b default).contentComp.length < 2 ^ 63)
    (hsmall : ∀ b, b < css.length → (css.getD b []).length < 2 ^ 31 ∧
      (css.getD b []).flatten.length < 2 ^ 31) :
    ∃ p rb1,
      loadLine codec zfr i = ({ zfr with
        fseek_flag := true, filePos := p, read_block := some rb1 },
        some (⟨((css.getD (getLineBlock zfr i) []).take
                  (i - lineAt css (getLineBlock zfr i))).flatten.length,
               ((css.getD (getLineBlock zfr i) []).getD
                  (i - lineAt css (getLineBlock zfr i)) []).length⟩,
          WhichBlock.read)) ∧
      CacheOk { zfr with
        fseek_flag := true, filePos := p, read_block := some rb1 }
        css (getLineBlock zfr i) := by
  obtain ⟨hblt, hge, hlt⟩ := getLineBlock_spec codec cap zfr css hr i hi
  have hmiss : (match zfr.read_block with
      | some rb => rb.idx == ((getLineBlock zfr i : Nat) : Int)
      | none => false) = false := by
    rw [hrb]
    simp [hidx]
  obtain ⟨p, rb1, hload, hcok⟩ :=
    readBlock_spec codec cap zfr css hr (getLineBlock zfr i) hblt
      (hclen _ hblt) (hsmall _ hblt).1 (hsmall _ hblt).2 hmiss
  refine ⟨p, rb1, ?_, hcok⟩
  obtain ⟨rb2, hrb2, hi2, ho2, hf2, hl2, hc2⟩ := hcok
  have hrb12 : rb1 = rb2 := by
    simpa using hrb2
  have hmodeF : (zfr.mode = ZLINE_MODE_CREATE) = False := by
    rw [hr.mode]
    simp [ZLINE_MODE_READ, ZLINE_MODE_CREATE]
  have hnone : lineInBlock zfr.read_block i = none := by
    rw [hrb]
    have hdef : lineInBlock (some rb) i
        = if rb.lines.length > 0 ∧ rb.first_line ≤ i ∧ i < rb.first_line + rb.lines.length
          then some (rb.lines.getD (i - rb.first_line) default) else none := rfl
    rw [hdef, if_neg (by rw [hlines]; simp)]
  have hline := lineInBlock_cache codec cap
    { zfr with
      fseek_flag := true, filePos := p, read_block := some rb1 }
    css (getLineBlock zfr i) hblt (hr.per _ hblt) rb2 hf2 hl2 i hge hlt
  have hline1 : lineInBlock (some rb1) i
      = some ⟨((css.getD (getLineBlock zfr i) []).take
                (i - lineAt css (getLineBlock zfr i))).flatten.length,
             ((css.getD (getLineBlock zfr i) []).getD
                (i - lineAt css (getLineBlock zfr i)) []).length⟩ := by
    rw [hrb12]
    exact hline
  unfold loadLine
  simp only [hmodeF, if_false, hnone, hload, hline1]

/-- ZlineFile_line_length on a freshly opened file returns the stored
line's length, leaving the loaded block in the cache (and the cursor
moved). -/
theorem line_length_spec (codec : Codec) (cap : Nat) (zfr : ZlineFile)
    (css : List (List Bytes)) (hr : ReadInv codec cap zfr css)
    (rb : ZlineBlock) (hrb : zfr.read_block = some rb) (hidx : rb.idx = -1)
    (hlines : rb.lines = [])
    (i : Nat) (hi : i < css.flatten.length)
    (hclen : ∀ b, b < css.length → (zfr.body.getD b default).contentComp.length < 2 ^ 63)
    (hsmall : ∀ b, b < css.length → (css.getD b []).length < 2 ^ 31 ∧
      (css.getD b []).flatten.length < 2 ^ 31) :
    ∃ p rb1, ZlineFile_line_length codec zfr i
      = (((css.flatten.getD i []).length : Int),
         { zfr with
           fseek_flag := true, filePos := p, read_block := some rb1 }) ∧
      CacheOk { zfr with
        fseek_flag := true, filePos := p, read_block := some rb1 } css
        (getLineBlock zfr i) := by
  obtain ⟨hblt, hge, hlt⟩ := getLineBlock_spec codec cap zfr css hr i hi
  obtain ⟨p, rb1, hload, hcok⟩ :=
    loadLine_fresh codec cap zfr css hr rb hrb hidx hlines i hi hclen hsmall
  refine ⟨p, rb1, ?_, hcok⟩
  unfold ZlineFile_line_length
  rw [if_neg (by rw [hr.lineCount]; omega)]
  simp only [hload]
  have hfg := flatten_getD css (getLineBlock zfr i) i hblt hge hlt
  rw [hfg]

theorem getBlockCompressedLen_eq (codec : Codec) (cap : Nat) (db : DiskBlock)
    (ent : ZlineIndexBlock) (ss : List Bytes) (off first : Nat)
    (hper : PerBlock codec cap db ent ss off first)
    (hlt : db.contentComp.length < 2 ^ 63) :
    getBlockCompressedLen ent = db.contentComp.length := by
  cases hdir : db.dir with
  | raw ls =>
    exact (flag_raw ent _ (by rw [hper.clenx, hdir]; simp [dirFlag]) hlt).2
  | compressed sl ls =>
    exact (flag_compressed ent _ (by rw [hper.clenx, hdir]; simp [dirFlag]) hlt).2

/-- ZlineFile_get_line2 on a re-opened file (fresh cache, or the
line's block already cached) returns the requested nul-terminated
slice of the stored line: min(len - off, buf_len - 1) bytes starting
off bytes in. -/
theorem get_line2_read_spec (codec : Codec) (cap : Nat) (zfA : ZlineFile)
    (css : List (List Bytes)) (hr : ReadInv codec cap zfA css)
    (i : Nat) (hi : i < css.flatten.length)
    (hstate : (∃ rb, zfA.read_block = some rb ∧ rb.idx = -1 ∧ rb.lines = []) ∨
      CacheOk zfA css (getLineBlock zfA i))
    (buf_len off : Nat) (hbl : 1 ≤ buf_len)
    (hclen : ∀ b, b < css.length → (zfA.body.getD b default).contentComp.length < 2 ^ 63)
    (hsmall : ∀ b, b < css.length → (css.getD b []).length < 2 ^ 31 ∧
      (css.getD b []).flatten.length < 2 ^ 31) :
    (ZlineFile_get_line2 codec zfA i buf_len off).1
      = some (((css.flatten.getD i []).drop off).take
          (min ((css.flatten.getD i []).length - off) (buf_len - 1)) ++ [0]) := by
  obtain ⟨hblt, hge, hlt⟩ := getLineBlock_spec codec cap zfA css hr i hi
  have hper := hr.per _ hblt
  have hfg := flatten_getD css (getLineBlock zfA i) i hblt hge hlt
  have hkl : i - lineAt css (getLineBlock zfA i)
      < (css.getD (getLineBlock zfA i) []).length := by
    have := lineAt_succ css (getLineBlock zfA i) hblt
    omega
  have hload : ∃ zfB, loadLine codec { zfA with fseek_flag := false } i
      = (zfB, some (⟨((css.getD (getLineBlock zfA i) []).take
                      (i - lineAt css (getLineBlock zfA i))).flatten.length,
                   ((css.getD (getLineBlock zfA i) []).getD
                      (i - lineAt css (getLineBlock zfA i)) []).length⟩,
          WhichBlock.read))
      ∧ ReadInv codec cap zfB css ∧ CacheOk zfB css (getLineBlock zfA i)
      ∧ zfB.body = zfA.body ∧ zfB.blocks = zfA.blocks := by
    rcases hstate with ⟨rb, hrb, hidx, hlines⟩ | hcache
    · have hr' : ReadInv codec cap { zfA with fseek_flag := false } css :=
        ReadInv_update codec cap zfA css hr false zfA.filePos zfA.read_block
      obtain ⟨p, rb1, hl, hcok⟩ := loadLine_fresh codec cap
        { zfA with fseek_flag := false } css hr' rb hrb hidx hlines i hi hclen hsmall
      exact ⟨_, hl, ReadInv_update codec cap zfA css hr true p (some rb1),
        hcok, rfl, rfl⟩
    · obtain ⟨rb, hrb, hidx, ho, hf, hl, hc⟩ := hcache
      have hline := lineInBlock_cache codec cap zfA css (getLineBlock zfA i) hblt
        hper rb hf hl i hge hlt
      refine ⟨{ zfA with fseek_flag := false }, ?_,
        ReadInv_update codec cap zfA css hr false zfA.filePos zfA.read_block,
        ⟨rb, hrb, hidx, ho, hf, hl, hc⟩, rfl, rfl⟩
      have hmodeF : (zfA.mode = ZLINE_MODE_CREATE) = False := by
        rw [hr.mode]
        simp [ZLINE_MODE_READ, ZLINE_MODE_CREATE]
      unfold loadLine
      simp only [hmodeF, if_false, hrb, hline]
  obtain ⟨zfB, hloadEq, hrB, hcokB, hbodyB, hblocksB⟩ := hload
  obtain ⟨rb2, hrb2, hirb2, horb2, hfrb2, hlrb2, hcrb2⟩ := hcokB
  have hperB := hrB.per _ hblt
  rw [hfg]
  unfold ZlineFile_get_line2
  rw [if_neg (by rw [hr.lineCount]; omega)]
  simp only [hloadEq, hrb2]
  by_cases hpos : ((css.getD (getLineBlock zfA i) []).getD
      (i - lineAt css (getLineBlock zfA i)) []).length > 0 ∧
      off < ((css.getD (getLineBlock zfA i) []).getD
        (i - lineAt css (getLineBlock zfA i)) []).length
  · rw [if_pos hpos]
    by_cases hovers : (css.getD (getLineBlock zfA i) []).length = 1 ∧
        MAX_IN_MEMORY_BLOCK < (css.getD (getLineBlock zfA i) []).flatten.length
    · -- streaming path: single oversize line left on disk
      rw [if_pos hovers] at hcrb2
      rw [hcrb2]
      rw [if_neg (by simp)]
      obtain ⟨a, hae⟩ := List.length_eq_one.mp hovers.1
      have hk0 : i - lineAt css (getLineBlock zfA i) = 0 := by
        rw [hovers.1] at hkl
        omega
      have hflata : (css.getD (getLineBlock zfA i) []).flatten = a := by
        rw [hae]
        simp
      have hgd0 : (css.getD (getLineBlock zfA i) []).getD
          (i - lineAt css (getLineBlock zfA i)) [] = a := by
        rw [hk0, hae]
        simp [List.getD]
      have htk0 : ((css.getD (getLineBlock zfA i) []).take
          (i - lineAt css (getLineBlock zfA i))).flatten.length = 0 := by
        rw [hk0]
        simp
      have hclenB : (zfB.body.getD (getLineBlock zfA i) default).contentComp.length
          < 2 ^ 63 := by
        rw [hbodyB]
        exact hclen _ hblt
      have hglen := getBlockCompressedLen_eq codec cap _ _ _ _ _ hperB hclenB
      have hidxnat : rb2.idx.toNat = getLineBlock zfA i := by
        rw [hirb2]
        exact Int.toNat_natCast _
      have hfind : zfB.body.find? (fun db => db.offset == rb2.offset)
          = some (zfB.body.getD (getLineBlock zfA i) default) := by
        rw [horb2]
        exact body_find?_spec codec cap zfB css hrB _ hblt
      simp only [hidxnat, hfind]
      have hcompeqB : (zfB.body.getD (getLineBlock zfA i) default).contentComp
          = codec.compress a := by
        rw [hperB.comp, hflata]
      have hcompneB : (zfB.body.getD (getLineBlock zfA i) default).contentComp ≠ [] := by
        rw [hcompeqB]
        exact codec.compress_pos _ (by
          intro hanil
          rw [hanil] at hflata
          exact hperB.flatNe hflata)
      have hwritten : decompressFromFile codec
          ((zfB.body.getD (getLineBlock zfA i) default).contentComp.take
            (getBlockCompressedLen (zfB.blocks.getD (getLineBlock zfA i) default)))
          (min (((css.getD (getLineBlock zfA i) []).getD
            (i - lineAt css (getLineBlock zfA i)) []).length - off) (buf_len - 1)) off
          = (a.drop off).take
            (min (((css.getD (getLineBlock zfA i) []).getD
              (i - lineAt css (getLineBlock zfA i)) []).length - off) (buf_len - 1)) := by
        rw [hglen, List.take_length]
        unfold decompressFromFile
        rw [if_neg (by simpa using hcompneB), hcompeqB, codec.decompress_compress]
      rw [hwritten]
      have hlenw : ((a.drop off).take
          (min (((css.getD (getLineBlock zfA i) []).getD
            (i - lineAt css (getLineBlock zfA i)) []).length - off) (buf_len - 1))).length
          = min (((css.getD (getLineBlock zfA i) []).getD
            (i - lineAt css (getLineBlock zfA i)) []).length - off) (buf_len - 1) := by
        simp only [List.length_take, List.length_drop]
        rw [hgd0] at hpos ⊢
        omega
      rw [if_neg (by rw [hlenw]; simp)]
      rw [hgd0]
    · -- in-memory path: the chunk content is cached
      rw [if_neg hovers] at hcrb2
      rw [hcrb2]
      have hflpos : 0 < (css.getD (getLineBlock zfA i) []).flatten.length := by
        cases hcs : (css.getD (getLineBlock zfA i) []).flatten with
        | nil => exact absurd hcs hper.flatNe
        | cons x xs => simp
      rw [if_pos (by simpa using hflpos)]
      have hslice := flatten_slice (css.getD (getLineBlock zfA i) [])
        (i - lineAt css (getLineBlock zfA i)) hkl off
        (min (((css.getD (getLineBlock zfA i) []).getD
          (i - lineAt css (getLineBlock zfA i)) []).length - off) (buf_len - 1))
        (by omega) (by omega)
      rw [hslice]
  · rw [if_neg hpos]
    have h0 : min (((css.getD (getLineBlock zfA i) []).getD
        (i - lineAt css (getLineBlock zfA i)) []).length - off) (buf_len - 1) = 0 := by
      omega
    rw [h0]
    simp

/-- ZlineFile_get_line on a freshly opened file returns the stored
line's bytes with a nul terminator. -/
theorem get_line_spec (codec : Codec) (cap : Nat) (zfr : ZlineFile)
    (css : List (List Bytes)) (hr : ReadInv codec cap zfr css)
    (rb : ZlineBlock) (hrb : zfr.read_block = some rb) (hidx : rb.idx = -1)
    (hlines : rb.lines = [])
    (i : Nat) (hi : i < css.flatten.length)
    (hclen : ∀ b, b < css.length → (zfr.body.getD b default).contentComp.length < 2 ^ 63)
    (hsmall : ∀ b, b < css.length → (css.getD b []).length < 2 ^ 31 ∧
      (css.getD b []).flatten.length < 2 ^ 31) :
    (ZlineFile_get_line codec zfr i).1 = some (css.flatten.getD i [] ++ [0]) := by
  obtain ⟨p, rb1, hll, hcok⟩ :=
    line_length_spec codec cap zfr css hr rb hrb hidx hlines i hi hclen hsmall
  unfold ZlineFile_get_line
  simp only [hll]
  rw [if_neg (Int.not_lt.mpr (Int.natCast_nonneg _))]
  have hr1 : ReadInv codec cap
      { zfr with fseek_flag := true, filePos := p, read_block := some rb1 } css :=
    ReadInv_update codec cap zfr css hr true p (some rb1)
  have hcok1 : CacheOk
      { zfr with fseek_flag := true, filePos := p, read_block := some rb1 } css
      (getLineBlock
        { zfr with fseek_flag := true, filePos := p, read_block := some rb1 } i) :=
    hcok
  have hgl2 := get_line2_read_spec codec cap
    { zfr with fseek_flag := true, filePos := p, read_block := some rb1 } css hr1
    i hi (Or.inr hcok1)
    (((css.flatten.getD i []).length : Int).toNat + 1) 0 (by omega) hclen hsmall
  rw [hgl2]
  simp [Int.toNat_natCast]

theorem length_le_flatten {α : Type} (cs : List (List α)) (s : List α) (hs : s ∈ cs) :
    s.length ≤ cs.flatten.length := by
  induction cs with
  | nil => simp at hs
  | cons c rest ih =>
    rcases List.mem_cons.mp hs with h | h
    · subst h
      simp [List.flatten_cons]
    · have := ih h
      simp only [List.flatten_cons, List.length_append]
      omega

theorem pair_le_flatten (cs : List Bytes) (k m : Nat) (hk : k < cs.length)
    (hm : m < cs.length) (hne : k ≠ m) :
    (cs.getD k []).length + (cs.getD m []).length ≤ cs.flatten.length := by
  induction cs generalizing k m with
  | nil => simp at hk
  | cons c rest ih =>
    cases k with
    | zero =>
      cases m with
      | zero => exact absurd rfl hne
      | succ m =>
        have h1 : (rest.getD m []).length ≤ rest.flatten.length :=
          length_le_flatten rest _ (getD_mem rest m [] (by simpa using hm))
        have hgd : ((c :: rest).getD 0 []) = c := by simp [List.getD]
        have hgd2 : ((c :: rest).getD (m + 1) []) = rest.getD m [] := by simp [List.getD]
        rw [hgd, hgd2]
        simp only [List.flatten_cons, List.length_append]
        omega
    | succ k =>
      cases m with
      | zero =>
        have h1 : (rest.getD k []).length ≤ rest.flatten.length :=
          length_le_flatten rest _ (getD_mem rest k [] (by simpa using hk))
        have hgd : ((c :: rest).getD 0 []) = c := by simp [List.getD]
        have hgd2 : ((c :: rest).getD (k + 1) []) = rest.getD k [] := by simp [List.getD]
        rw [hgd, hgd2]
        simp only [List.flatten_cons, List.length_append]
        omega
      | succ m =>
        have := ih k m (by simpa using hk) (by simpa using hm) (by omega)
        have hgd : ((c :: rest).getD (k + 1) []) = rest.getD k [] := by simp [List.getD]
        have hgd2 : ((c :: rest).getD (m + 1) []) = rest.getD m [] := by simp [List.getD]
        rw [hgd, hgd2]
        simp only [List.flatten_cons, List.length_append]
        omega

theorem block_size_original_eq (codec : Codec) (cap : Nat) (zfr : ZlineFile)
    (css : List (List Bytes)) (hr : ReadInv codec cap zfr css) (b : Nat)
    (hb : b < css.length) :
    ZlineFile_get_block_size_original zfr b = (css.getD b []).flatten.length := by
  unfold ZlineFile_get_block_size_original
  rw [if_neg (by rw [hr.blocksLen]; omega), (hr.per b hb).declen]

theorem chunk_flatten_lt (codec : Codec) (cap : Nat) (zfr : ZlineFile)
    (css : List (List Bytes)) (hr : ReadInv codec cap zfr css)
    (hlen : ∀ s ∈ css.flatten, s.length < 2 ^ 31) (b : Nat) (hb : b < css.length) :
    (css.getD b []).flatten.length < 2 ^ 31 := by
  have hper := hr.per b hb
  rcases hper.szBound with hle | ⟨s, hs, heq⟩
  · have := hr.capLe
    unfold C_INT_MAX at this
    omega
  · have hmem : s ∈ css.flatten := mem_getD_flatten css b hb s hs
    have := hlen s hmem
    omega

theorem clen_bound (codec : Codec) (cap : Nat) (zfr : ZlineFile)
    (css : List (List Bytes)) (hr : ReadInv codec cap zfr css)
    (hlen : ∀ s ∈ css.flatten, s.length < 2 ^ 31)
    (Hcomp : ∀ bts : Bytes, bts.length < 2 ^ 31 → (codec.compress bts).length < 2 ^ 63) :
    ∀ b, b < css.length → (zfr.body.getD b default).contentComp.length < 2 ^ 63 := by
  intro b hb
  rw [(hr.per b hb).comp]
  exact Hcomp _ (chunk_flatten_lt codec cap zfr css hr hlen b hb)

/-- With every line shorter than 2^31 and fewer than 2^31 lines in
total, every block stays inside the C int range: its line count and
its decompressed length are both below 2^31, so neither readBlock
narrowing can truncate. -/
theorem chunk_small (codec : Codec) (cap : Nat) (zfr : ZlineFile)
    (css : List (List Bytes)) (hr : ReadInv codec cap zfr css)
    (hlen : ∀ s ∈ css.flatten, s.length < 2 ^ 31)
    (htot : css.flatten.length < 2 ^ 31) :
    ∀ b, b < css.length → (css.getD b []).length < 2 ^ 31 ∧
      (css.getD b []).flatten.length < 2 ^ 31 := by
  intro b hb
  constructor
  · have hmem : css.getD b [] ∈ css := getD_mem css b [] hb
    have := length_le_flatten css _ hmem
    omega
  · exact chunk_flatten_lt codec cap zfr css hr hlen b hb

/-- C1 (amended): round-trip correctness for sequences of fewer than
2^31 lines, each shorter than 2^31 bytes, whose last nonempty line
either fits a block or ends the sequence: building a file from S with
ZlineFile_create2 / ZlineFile_add_line2 / ZlineFile_close and
re-opening it with ZlineFile_read succeeds and yields
line_count = |S|, max_line_length = max of the line lengths, and for
every index the stored length and the nul-terminated bytes of that
line.  The 2^31 bounds keep every block's line count and decompressed
length inside the C int range: beyond them readBlock's int narrowings
(the block_line_count variable and the contentInsureCapacity request)
truncate, the content buffer is not grown, and the decompress
overflows the heap — e.g. an empty line buffered before a line of
length ≥ 2^31 shares its block and is cached through the truncated
request.  (The unamended claim is refuted by C1_counterexample:
trailing empty lines after an all-empty or oversize-ended history are
dropped.) -/
theorem C1_roundtrip (codec : Codec) (block_size : Nat) (S : List Bytes)
    (hbs : block_size ≤ 2 ^ 31 - 1)
    (hlen : ∀ s ∈ S, s.length < 2 ^ 31) (hS : S.length < 2 ^ 31)
    (Hcomp : ∀ bts : Bytes, bts.length < 2 ^ 31 → (codec.compress bts).length < 2 ^ 63)
    (i0 : Nat) (hl : lastNonemptyIdx? S = some i0)
    (hok : (S.getD i0 []).length ≤ capOf block_size ∨ i0 = S.length - 1) :
    ∃ zfr, roundTrip codec block_size S = some zfr ∧
      ZlineFile_line_count zfr = S.length ∧
      ZlineFile_max_line_length zfr = maxLenAcc S ∧
      (∀ i, i < S.length →
        (ZlineFile_line_length codec zfr i).1 = ((S.getD i []).length : Int) ∧
        (ZlineFile_get_line codec zfr i).1 = some (S.getD i [] ++ [0])) := by
  obtain ⟨zfr, css1, hflat, hrt, hrinv, rb, hrb, hidx, hlines, hcont⟩ :=
    roundTrip_ReadInv codec block_size S (by unfold C_INT_MAX; omega) i0 hl hok
  subst hflat
  refine ⟨zfr, hrt, ?_, ?_, ?_⟩
  · unfold ZlineFile_line_count
    rw [hrinv.lineCount]
  · unfold ZlineFile_max_line_length
    rw [hrinv.maxLen]
  · intro i hi
    have hclen := clen_bound codec _ zfr css1 hrinv hlen Hcomp
    have hsmall := chunk_small codec _ zfr css1 hrinv hlen hS
    constructor
    · obtain ⟨p, rb1, hll, -⟩ :=
        line_length_spec codec _ zfr css1 hrinv rb hrb hidx hlines i hi hclen hsmall
      rw [hll]
    · exact get_line_spec codec _ zfr css1 hrinv rb hrb hidx hlines i hi hclen hsmall

/-- C1 witness: the amended round-trip evaluated at block size 4 and
the two lines "ab", "c" with the identity codec. -/
theorem C1_witness :
    ∃ zfr, roundTrip idCodec 4 [[97, 98], [99]] = some zfr ∧
      ZlineFile_line_count zfr = [[97, 98], [99]].length ∧
      ZlineFile_max_line_length zfr = maxLenAcc [[97, 98], [99]] ∧
      (∀ i, i < [[97, 98], [99]].length →
        (ZlineFile_line_length idCodec zfr i).1
          = (([[97, 98], [99]].getD i []).length : Int) ∧
        (ZlineFile_get_line idCodec zfr i).1
          = some ([[97, 98], [99]].getD i [] ++ [0])) :=
  C1_roundtrip idCodec 4 [[97, 98], [99]] (by decide) (by decide) (by decide)
    (fun bts h => lt_trans h (by norm_num)) 1 (by decide) (by decide)

/-- C2 (amended): slice correctness for lines of a file built from a
well-formed sequence (same side conditions as the round-trip,
including the 2^31 bounds on line count and line lengths that keep
readBlock's int narrowings — block_line_count and the
contentInsureCapacity request — in range): for every stored line,
offset and destination size ≥ 1, get_line2 writes exactly
min(len - off, buf_len - 1) bytes of the line starting at off,
nul-terminated; when off ≥ len only the nul is written.  (The
unamended claim is refuted by C2_counterexample: on a file whose
trailing empty line was dropped the call returns null instead.) -/
theorem C2_slice (codec : Codec) (block_size : Nat) (S : List Bytes)
    (hbs : block_size ≤ 2 ^ 31 - 1)
    (hlen : ∀ s ∈ S, s.length < 2 ^ 31) (hS : S.length < 2 ^ 31)
    (Hcomp : ∀ bts : Bytes, bts.length < 2 ^ 31 → (codec.compress bts).length < 2 ^ 63)
    (i0 : Nat) (hl : lastNonemptyIdx? S = some i0)
    (hok : (S.getD i0 []).length ≤ capOf block_size ∨ i0 = S.length - 1)
    (i : Nat) (hi : i < S.length) (buf_len off : Nat) (hbl : 1 ≤ buf_len) :
    ∃ zfr, roundTrip codec block_size S = some zfr ∧
      (ZlineFile_get_line2 codec zfr i buf_len off).1
        = some (((S.getD i []).drop off).take
            (min ((S.getD i []).length - off) (buf_len - 1)) ++ [0]) := by
  obtain ⟨zfr, css1, hflat, hrt, hrinv, rb, hrb, hidx, hlines, hcont⟩ :=
    roundTrip_ReadInv codec block_size S (by unfold C_INT_MAX; omega) i0 hl hok
  subst hflat
  have hclen := clen_bound codec _ zfr css1 hrinv hlen Hcomp
  have hsmall := chunk_small codec _ zfr css1 hrinv hlen hS
  refine ⟨zfr, hrt, ?_⟩
  exact get_line2_read_spec codec _ zfr css1 hrinv i hi
    (Or.inl ⟨rb, hrb, hidx, hlines⟩) buf_len off hbl hclen hsmall

/-- C2 witness: slicing line 0 = "ab" with buf_len 2 and offset 1
yields the byte 'b' and the nul terminator. -/
theorem C2_witness :
    ∃ zfr, roundTrip idCodec 4 [[97, 98], [99]] = some zfr ∧
      (ZlineFile_get_line2 idCodec zfr 0 2 1).1
        = some ((([[97, 98], [99]].getD 0 []).drop 1).take
            (min (([[97, 98], [99]].getD 0 []).length - 1) (2 - 1)) ++ [0]) :=
  C2_slice idCodec 4 [[97, 98], [99]] (by decide) (by decide) (by decide)
    (fun bts h => lt_trans h (by norm_num)) 1 (by decide) (by decide)
    0 (by decide) 2 1 (by decide)

/-- The layout of a closed file whose final write block had nothing to
flush: the retained index entries have strictly increasing offsets
differing by exactly the on-disk block size, and block_starts is
strictly increasing. -/
theorem close_layout_aux (codec : Codec) (cap : Nat) (zf : ZlineFile) (S : List Bytes)
    (css : List (List Bytes)) (ws : List Bytes) (wb : ZlineBlock)
    (hc : CoreInv codec cap zf S css ws wb) (hwbc : wb.content = []) :
    (∀ b, b + 1 < (ZlineFile_close codec zf).blocks.length →
      ((ZlineFile_close codec zf).blocks.getD b default).offset
        < ((ZlineFile_close codec zf).blocks.getD (b + 1) default).offset ∧
      ((ZlineFile_close codec zf).blocks.getD (b + 1) default).offset
        = ((ZlineFile_close codec zf).blocks.getD b default).offset
          + diskBlockSize ((ZlineFile_close codec zf).body.getD b default)) ∧
    (∀ j, j + 1 < (ZlineFile_close codec zf).block_starts.length →
      (ZlineFile_close codec zf).block_starts.getD j 0
        < (ZlineFile_close codec zf).block_starts.getD (j + 1) 0) := by
  have hblocksLen : zf.blocks.length = zf.body.length + 1 := hc.blocksLen
  have hstartsLen : zf.block_starts.length = zf.body.length := hc.startsLen
  have hcssLen : css.length = zf.body.length := hc.cssLen
  have hcl : ZlineFile_close codec zf = {
      header := { data_offset := zf.data_offset,
                  index_offset := wb.offset + (8 - wb.offset % 8) % 8,
                  lines := zf.line_count, blocks := zf.blocks.length - 1,
                  maxlen := zf.max_line_len, zi := zf.is_index_compressed },
      body := zf.body,
      blocks := zf.blocks.take (zf.blocks.length - 1),
      block_starts := zf.block_starts.take (zf.blocks.length - 1 - 1) } := by
    unfold ZlineFile_close
    simp [hc.wbeq, hwbc]
  rw [hcl]
  constructor
  · intro b hb1
    have hlen : (zf.blocks.take (zf.blocks.length - 1)).length = zf.body.length := by
      simp
      omega
    rw [hlen] at hb1
    have hperb := hc.per b (by omega)
    have hperb1 := hc.per (b + 1) (by omega)
    have hg1 : (zf.blocks.take (zf.blocks.length - 1)).getD b default
        = zf.blocks.getD b default := getD_take _ _ _ _ (by omega)
    have hg2 : (zf.blocks.take (zf.blocks.length - 1)).getD (b + 1) default
        = zf.blocks.getD (b + 1) default := getD_take _ _ _ _ (by omega)
    have hoff := offAt_succ zf.body b (by omega)
    have hpos : 1 ≤ diskBlockSize (zf.body.getD b default) := by
      have hne : (zf.body.getD b default).contentComp ≠ [] := by
        rw [hperb.comp]
        exact codec.compress_pos _ hperb.flatNe
      unfold diskBlockSize
      have h1 : 1 ≤ (zf.body.getD b default).contentComp.length := by
        cases hcc : (zf.body.getD b default).contentComp with
        | nil => exact absurd hcc hne
        | cons x xs => simp
      omega
    rw [hg1, hg2, hperb.entOff, hperb1.entOff, hoff]
    exact ⟨by omega, rfl⟩
  · intro j hj1
    have hlen : (zf.block_starts.take (zf.blocks.length - 1 - 1)).length
        = zf.body.length - 1 := by
      simp
      omega
    rw [hlen] at hj1
    have hg1 : (zf.block_starts.take (zf.blocks.length - 1 - 1)).getD j 0
        = zf.block_starts.getD j 0 := getD_take _ _ _ _ (by omega)
    have hg2 : (zf.block_starts.take (zf.blocks.length - 1 - 1)).getD (j + 1) 0
        = zf.block_starts.getD (j + 1) 0 := getD_take _ _ _ _ (by omega)
    rw [hg1, hg2, hc.starts j (by omega), hc.starts (j + 1) (by omega)]
    have hsu := lineAt_succ css (j + 1) (by omega)
    have hpos : 1 ≤ (css.getD (j + 1) []).length := by
      have hne := (hc.per (j + 1) (by omega)).ssNe
      cases hcs : css.getD (j + 1) [] with
      | nil => exact absurd hcs hne
      | cons a as => simp
    omega

/-- The layout property of ZlineFile_close holds for every building
state: close flushes a nonempty write block first, and the flushed
state satisfies the same invariant. -/
theorem close_layout (codec : Codec) (cap : Nat) (zf : ZlineFile) (S : List Bytes)
    (css : List (List Bytes)) (ws : List Bytes) (wb : ZlineBlock)
    (hc : CoreInv codec cap zf S css ws wb) :
    (∀ b, b + 1 < (ZlineFile_close codec zf).blocks.length →
      ((ZlineFile_close codec zf).blocks.getD b default).offset
        < ((ZlineFile_close codec zf).blocks.getD (b + 1) default).offset ∧
      ((ZlineFile_close codec zf).blocks.getD (b + 1) default).offset
        = ((ZlineFile_close codec zf).blocks.getD b default).offset
          + diskBlockSize ((ZlineFile_close codec zf).body.getD b default)) ∧
    (∀ j, j + 1 < (ZlineFile_close codec zf).block_starts.length →
      (ZlineFile_close codec zf).block_starts.getD j 0
        < (ZlineFile_close codec zf).block_starts.getD (j + 1) 0) := by
  by_cases hfl : ws.flatten = []
  · exact close_layout_aux codec cap zf S css ws wb hc (by rw [hc.wbContent, hfl])
  · obtain ⟨wb1, hc1⟩ := flushBlock_preserves codec cap zf S css ws wb hc hfl
    have h1 : wb.content ≠ [] := by
      rw [hc.wbContent]
      exact hfl
    have h2 : wb1.content = [] := by simpa using hc1.wbContent
    have hstep : ZlineFile_close codec zf = ZlineFile_close codec (flushBlock codec zf) := by
      unfold ZlineFile_close
      simp [hc.wbeq, hc1.wbeq, h1, h2]
    rw [hstep]
    exact close_layout_aux codec cap (flushBlock codec zf) S (css ++ [ws]) [] wb1 hc1 h2

/-- C8: layout monotonicity, unconditionally for every closed file:
whatever sequence of lines was added (any lengths, any trailing
empties), after close the retained block index entries have strictly
increasing offsets, consecutive offsets differing by exactly that
block's on-disk size (line-directory bytes plus compressed content
bytes), and the block_starts array is strictly increasing.  The only
hypothesis is that create2 accepted the block size, without which no
closed file exists. -/
theorem C8_layout_monotonicity (codec : Codec) (block_size : Nat) (S : List Bytes)
    (hbs : block_size ≤ 2 ^ 31 - 1) :
    ∃ zfB, buildFile codec block_size S = some zfB ∧
      (∀ b, b + 1 < (ZlineFile_close codec zfB).blocks.length →
        ((ZlineFile_close codec zfB).blocks.getD b default).offset
          < ((ZlineFile_close codec zfB).blocks.getD (b + 1) default).offset ∧
        ((ZlineFile_close codec zfB).blocks.getD (b + 1) default).offset
          = ((ZlineFile_close codec zfB).blocks.getD b default).offset
            + diskBlockSize ((ZlineFile_close codec zfB).body.getD b default)) ∧
      (∀ j, j + 1 < (ZlineFile_close codec zfB).block_starts.length →
        (ZlineFile_close codec zfB).block_starts.getD j 0
          < (ZlineFile_close codec zfB).block_starts.getD (j + 1) 0) := by
  have hcr : ∃ zf0, ZlineFile_create2 block_size = some zf0 := by
    unfold ZlineFile_create2
    rw [if_neg (by unfold C_INT_MAX; omega)]
    exact ⟨_, rfl⟩
  obtain ⟨zf0, hcr⟩ := hcr
  have hbuild : buildFile codec block_size S
      = some (S.foldl (fun zf s => (ZlineFile_add_line2 codec zf s s.length).2) zf0) := by
    unfold buildFile
    rw [hcr]
    rfl
  refine ⟨_, hbuild, ?_⟩
  obtain ⟨css, ws, wb, hcI, -, -⟩ := buildFile_CreateInv codec block_size S _ hbuild
  exact close_layout codec (capOf block_size) _ S css ws wb hcI

/-- C8 witness: block size 1, lines "a", "b", "cd", "": a dirty tail
(oversize last-nonempty line followed by a trailing empty line), three
data blocks with strictly increasing offsets and block_starts. -/
theorem C8_witness :
    ∃ zfB, buildFile idCodec 1 [[97], [98], [99, 100], []] = some zfB ∧
      (∀ b, b + 1 < (ZlineFile_close idCodec zfB).blocks.length →
        ((ZlineFile_close idCodec zfB).blocks.getD b default).offset
          < ((ZlineFile_close idCodec zfB).blocks.getD (b + 1) default).offset ∧
        ((ZlineFile_close idCodec zfB).blocks.getD (b + 1) default).offset
          = ((ZlineFile_close idCodec zfB).blocks.getD b default).offset
            + diskBlockSize ((ZlineFile_close idCodec zfB).body.getD b default)) ∧
      (∀ j, j + 1 < (ZlineFile_close idCodec zfB).block_starts.length →
        (ZlineFile_close idCodec zfB).block_starts.getD j 0
          < (ZlineFile_close idCodec zfB).block_starts.getD (j + 1) 0) :=
  C8_layout_monotonicity idCodec 1 [[97], [98], [99, 100], []] (by decide)

/-- C5 (amended): a line longer than the configured block capacity is
not split: the block holding it has decompressed_length equal to the
whole line length, every other line stored in that block is empty, and
the line's stored length is retrievable.  On read, the block's content
is left out of the cache exactly when the block holds a single line
AND its decompressed length exceeds the fixed 4 MiB
MAX_IN_MEMORY_BLOCK threshold (not the configured block size); in that
case get_line2 streams from disk (the streaming branch of
get_line2_read_spec), otherwise the content is cached.  The 2^31
bounds on line count and line lengths keep the caching path inside
the C int range of readBlock's contentInsureCapacity request and
block_line_count — beyond them the cached path heap-overflows and
nothing can be asserted.  (The unamended claim is refuted by
C5_counterexample: a 50-byte line with block size 20 IS cached.) -/
theorem C5_oversize_lines (codec : Codec) (block_size : Nat) (S : List Bytes)
    (hbs : block_size ≤ 2 ^ 31 - 1)
    (hlen : ∀ s ∈ S, s.length < 2 ^ 31) (hS : S.length < 2 ^ 31)
    (Hcomp : ∀ bts : Bytes, bts.length < 2 ^ 31 → (codec.compress bts).length < 2 ^ 63)
    (i0 : Nat) (hl : lastNonemptyIdx? S = some i0)
    (hok : (S.getD i0 []).length ≤ capOf block_size ∨ i0 = S.length - 1)
    (i : Nat) (hi : i < S.length)
    (hbig : capOf block_size < (S.getD i []).length) :
    ∃ zfr, roundTrip codec block_size S = some zfr ∧
      ZlineFile_get_block_size_original zfr (getLineBlock zfr i) = (S.getD i []).length ∧
      (∀ j, j < S.length → getLineBlock zfr j = getLineBlock zfr i → j ≠ i →
        S.getD j [] = []) ∧
      (ZlineFile_line_length codec zfr i).1 = ((S.getD i []).length : Int) ∧
      (∃ rb1, (readBlock codec zfr (getLineBlock zfr i)).read_block = some rb1 ∧
        (rb1.content = [] ↔
          (ZlineFile_get_block_line_count zfr (getLineBlock zfr i) = 1 ∧
           MAX_IN_MEMORY_BLOCK <
             ZlineFile_get_block_size_original zfr (getLineBlock zfr i)))) := by
  obtain ⟨zfr, css1, hflat, hrt, hrinv, rb, hrb, hidx, hlines, hcont⟩ :=
    roundTrip_ReadInv codec block_size S (by unfold C_INT_MAX; omega) i0 hl hok
  subst hflat
  have hclen := clen_bound codec _ zfr css1 hrinv hlen Hcomp
  have hsmall := chunk_small codec _ zfr css1 hrinv hlen hS
  obtain ⟨hblt, hge, hlt⟩ := getLineBlock_spec codec _ zfr css1 hrinv i hi
  have hper := hrinv.per _ hblt
  have hfg := flatten_getD css1 (getLineBlock zfr i) i hblt hge hlt
  have hkl : i - lineAt css1 (getLineBlock zfr i)
      < (css1.getD (getLineBlock zfr i) []).length := by
    have := lineAt_succ css1 (getLineBlock zfr i) hblt
    omega
  have hbig' : capOf block_size < ((css1.getD (getLineBlock zfr i) []).getD
      (i - lineAt css1 (getLineBlock zfr i)) []).length := by
    rw [← hfg]
    exact hbig
  have hlenk : ((css1.getD (getLineBlock zfr i) []).getD
      (i - lineAt css1 (getLineBlock zfr i)) []).length
      ≤ (css1.getD (getLineBlock zfr i) []).flatten.length :=
    length_le_flatten _ _ (getD_mem _ _ _ hkl)
  have hflateq : (css1.getD (getLineBlock zfr i) []).flatten.length
      = ((css1.getD (getLineBlock zfr i) []).getD
          (i - lineAt css1 (getLineBlock zfr i)) []).length := by
    rcases hper.szBound with hle | ⟨s, hs, heq⟩
    · omega
    · obtain ⟨m, hm, hms⟩ := List.getElem_of_mem hs
      have hgm : (css1.getD (getLineBlock zfr i) []).getD m [] = s := by
        rw [getD_eq_get _ _ _ hm]
        exact hms
      by_cases hkm : i - lineAt css1 (getLineBlock zfr i) = m
      · have hgk : (css1.getD (getLineBlock zfr i) []).getD
            (i - lineAt css1 (getLineBlock zfr i)) [] = s := by
          rw [hkm]
          exact hgm
        rw [hgk]
        exact heq
      · have hp := pair_le_flatten (css1.getD (getLineBlock zfr i) [])
          (i - lineAt css1 (getLineBlock zfr i)) m hkl hm hkm
        rw [hgm] at hp
        rw [heq] at hp
        have hcap1 := hrinv.capPos
        omega
  refine ⟨zfr, hrt, ?_, ?_, ?_, ?_⟩
  · rw [block_size_original_eq codec _ zfr css1 hrinv _ hblt, hflateq, hfg]
  · intro j hj hbj hji
    obtain ⟨hbltj, hgej, hltj⟩ := getLineBlock_spec codec _ zfr css1 hrinv j hj
    rw [hbj] at hgej hltj
    have hfgj := flatten_getD css1 (getLineBlock zfr i) j hblt hgej hltj
    have hklj : j - lineAt css1 (getLineBlock zfr i)
        < (css1.getD (getLineBlock zfr i) []).length := by
      have := lineAt_succ css1 (getLineBlock zfr i) hblt
      omega
    have hne : j - lineAt css1 (getLineBlock zfr i)
        ≠ i - lineAt css1 (getLineBlock zfr i) := by omega
    have hp := pair_le_flatten (css1.getD (getLineBlock zfr i) [])
      (j - lineAt css1 (getLineBlock zfr i))
      (i - lineAt css1 (getLineBlock zfr i)) hklj hkl hne
    have hzero : ((css1.getD (getLineBlock zfr i) []).getD
        (j - lineAt css1 (getLineBlock zfr i)) []).length = 0 := by
      omega
    rw [hfgj]
    exact List.length_eq_zero.mp hzero
  · obtain ⟨p, rb1, hll, -⟩ :=
      line_length_spec codec _ zfr css1 hrinv rb hrb hidx hlines i hi hclen hsmall
    rw [hll]
  · have hmiss : (match zfr.read_block with
        | some rb0 => rb0.idx == ((getLineBlock zfr i : Nat) : Int)
        | none => false) = false := by
      rw [hrb]
      simp [hidx]
    obtain ⟨p, rb1, hrbeq, hcok⟩ := readBlock_spec codec _ zfr css1 hrinv
      (getLineBlock zfr i) hblt (hclen _ hblt) (hsmall _ hblt).1 (hsmall _ hblt).2 hmiss
    obtain ⟨rb2, hsome, hi2, ho2, hf2, hl2, hc2⟩ := hcok
    refine ⟨rb2, by rw [hrbeq]; exact hsome, ?_⟩
    rw [block_line_count_eq codec _ zfr css1 hrinv _ hblt,
      block_size_original_eq codec _ zfr css1 hrinv _ hblt, hc2]
    constructor
    · intro hnil
      by_cases hco : (css1.getD (getLineBlock zfr i) []).length = 1 ∧
          MAX_IN_MEMORY_BLOCK < (css1.getD (getLineBlock zfr i) []).flatten.length
      · exact hco
      · rw [if_neg hco] at hnil
        exact absurd hnil hper.flatNe
    · intro hco
      rw [if_pos hco]

/-- C5 witness: block size 1 with the single 2-byte line "ab": the
oversize line is its whole block (decompressed length 2), retrievable,
and — being far below 4 MiB — its content IS cached on read. -/
theorem C5_witness :
    ∃ zfr, roundTrip idCodec 1 [[97, 98]] = some zfr ∧
      ZlineFile_get_block_size_original zfr (getLineBlock zfr 0)
        = ([[97, 98]].getD 0 []).length ∧
      (∀ j, j < [[97, 98]].length → getLineBlock zfr j = getLineBlock zfr 0 → j ≠ 0 →
        [[97, 98]].getD j [] = []) ∧
      (ZlineFile_line_length idCodec zfr 0).1 = (([[97, 98]].getD 0 []).length : Int) ∧
      (∃ rb1, (readBlock idCodec zfr (getLineBlock zfr 0)).read_block = some rb1 ∧
        (rb1.content = [] ↔
          (ZlineFile_get_block_line_count zfr (getLineBlock zfr 0) = 1 ∧
           MAX_IN_MEMORY_BLOCK <
             ZlineFile_get_block_size_original zfr (getLineBlock zfr 0)))) :=
  C5_oversize_lines idCodec 1 [[97, 98]] (by decide) (by decide) (by decide)
    (fun bts h => lt_trans h (by norm_num)) 0 (by decide) (by decide)
    0 (by decide) (by decide)
